import Mathlib

/-!
Verification of the fog_server placement subsystem against its
natural-language specification.

The Python sources are shallowly embedded: spec values (CPU, RAM, disk,
bandwidth, delay, ...) are modelled as exact rationals, Python `None` as
`Option`, Python dictionaries (which keep insertion order and have unique
keys) as association lists, and fallible code as `Except`/`Option`.
Wall-clock time (`time.time()`) is passed explicitly as a `now` argument.
-/

namespace FogServer

/-- Extended rationals: `⊤` plays the role of Python `float('inf')` where it
can actually arise (path lengths, costs, cutoffs). -/
abbrev EQt := WithTop ℚ

-- ============================================================
--  C8 : Protocol._is_request (server/ryu_apps/protocol.py)
-- ============================================================

/-- Scapy layers that can appear in a dissected packet-in frame. -/
inductive Layer where
  | ether
  | ip
  | myProtocol
  | other
deriving DecidableEq, Repr

/-- A dissected packet-in frame, as seen by `Protocol._is_request`:
its layer list and the header fields the validator reads. -/
structure PFrame where
  layers : List Layer
  ethDst : String
  ipSrc : String
  ipDst : String
  reqId : String
deriving DecidableEq, Repr

/-- Modelled from the spec: `consts.py` is not under `src/`; the spec only
says frames "originate from neither the orchestrator nor the default
address", so the default address is one fixed constant distinct per config. -/
def DEFAULT_IP : String := "0.0.0.0"

/-- Embedding of `Protocol._is_request` (protocol.py lines 248-263).
`decoyMac`/`decoyIp` are the CONTROLLER_DECOY_MAC/IP configuration values. -/
def isRequest (decoyMac decoyIp : String) (req : PFrame) : Bool :=
  -- a packet must have Ether, IP and MyProtocol layers
  req.layers.contains Layer.ether
    && req.layers.contains Layer.ip
    && req.layers.contains Layer.myProtocol
    -- and no other layer
    && !(req.layers.any (fun l =>
          l ≠ Layer.ether && l ≠ Layer.ip && l ≠ Layer.myProtocol))
    -- and not self
    && req.ipSrc ≠ decoyIp
    && req.ipSrc ≠ DEFAULT_IP
    -- and decoy controller
    && req.ethDst = decoyMac
    && req.ipDst = decoyIp
    -- and must have an ID
    && req.reqId ≠ ""

-- ============================================================
--  C2 : _SimpleNodeSelection.select (server/selection.py)
-- ============================================================

/-- Node specs (model.py `NodeSpecs`), exact-rational valued. -/
structure NodeSpecsQ where
  cpuCount : ℚ
  cpuFree : ℚ
  memoryTotal : ℚ
  memoryFree : ℚ
  diskTotal : ℚ
  diskFree : ℚ
  timestamp : ℚ
deriving DecidableEq, Repr

/-- The slice of model.py `Node` read by the node selector.  Python compares
`node != req.src` by object identity; topology nodes are keyed by their
unique `id`, so identity of nodes is identity of ids. -/
structure NodeQ where
  id : String
  state : Bool
  threshold : ℚ
  specs : NodeSpecsQ
deriving DecidableEq, Repr

/-- The slice of model.py `CoS` specs read by the selectors. -/
structure CoSQ where
  maxDelay : ℚ
  maxJitter : ℚ
  maxLossRate : ℚ
  minBandwidth : ℚ
  minCpu : ℚ
  minRam : ℚ
  minDisk : ℚ
deriving DecidableEq, Repr

/-- The slice of model.py `Request` read by the selectors.  `srcId` is the
id of the source Node when `req.src` is a Node, `none` when it is not a
topology Node (an IP string, or an unknown MAC), in which case the Python
identity test `node != req.src` is always true. -/
structure RequestQ where
  srcId : Option String
  cos : CoSQ
deriving DecidableEq, Repr

/-- Selection strategies (selection.py). -/
def ALL : String := "ALL"

def FIRST : String := "FIRST"

def BEST : String := "BEST"

/-- Embedding of `_check_resources` (selection.py lines 47-55). -/
def checkResources (node : NodeQ) (req : RequestQ) : Bool :=
  (match req.srcId with
   | some i => node.id ≠ i
   | none => true)
    && node.state
    && decide (node.specs.cpuFree - req.cos.minCpu
         ≥ node.specs.cpuCount * node.threshold)
    && decide (node.specs.memoryFree - req.cos.minRam
         ≥ node.specs.memoryTotal * node.threshold)
    && decide (node.specs.diskFree - req.cos.minDisk
         ≥ node.specs.diskTotal * node.threshold)

/-- The slice of a Topology object that `select` reads:
`get_nodes().values()` in insertion order. -/
structure SelTopo where
  nodes : List NodeQ
deriving DecidableEq, Repr

/-- Embedding of `_SimpleNodeSelection.select` (selection.py lines 46-70).
Python implicitly returns `None` when the FIRST loop finds no match, hence
the `Option`. -/
def simpleSelect (topo : SelTopo) (req : RequestQ) (strategy : String) :
    Option (List NodeQ) :=
  let nodes := topo.nodes
  if strategy = "" ∨ strategy = ALL then
    some (nodes.filter (fun node => checkResources node req))
  else if strategy = FIRST then
    match nodes.find? (fun node => checkResources node req) with
    | some node => some [node]
    | none => none
  else
    some []

/-- `find?` on a split list whose prefix all fails the predicate. -/
theorem find?_append_cons {α : Type} (p : α → Bool) (l1 l2 : List α) (n : α)
    (hl1 : ∀ m ∈ l1, p m = false) (hn : p n = true) :
    (l1 ++ n :: l2).find? p = some n := by
  induction l1 with
  | nil => simp [List.find?_cons, hn]
  | cons m ms ih =>
    have hm : p m = false := hl1 m (by simp)
    simp only [List.cons_append, List.find?_cons, hm]
    exact ih (fun x hx => hl1 x (by simp [hx]))

/-- C2: under ALL, `_SimpleNodeSelection.select` returns exactly the nodes
that pass all five resource checks; under FIRST it returns the first such
node; under any unsupported strategy it returns an empty list. -/
theorem c2_simple_select_spec (topo : SelTopo) (req : RequestQ) :
    (simpleSelect topo req ALL
      = some (topo.nodes.filter (fun node => checkResources node req)))
    ∧ (∀ n, n ∈ (simpleSelect topo req ALL).getD []
        ↔ n ∈ topo.nodes
          ∧ (∀ i, req.srcId = some i → n.id ≠ i)
          ∧ n.state = true
          ∧ n.specs.cpuFree - req.cos.minCpu ≥ n.specs.cpuCount * n.threshold
          ∧ n.specs.memoryFree - req.cos.minRam
              ≥ n.specs.memoryTotal * n.threshold
          ∧ n.specs.diskFree - req.cos.minDisk
              ≥ n.specs.diskTotal * n.threshold)
    ∧ (∀ l1 n l2, topo.nodes = l1 ++ n :: l2
        → checkResources n req = true
        → (∀ m ∈ l1, checkResources m req = false)
        → simpleSelect topo req FIRST = some [n])
    ∧ (∀ s, s ≠ "" → s ≠ ALL → s ≠ FIRST → simpleSelect topo req s = some []) := by
  have hall : simpleSelect topo req ALL
      = some (topo.nodes.filter (fun node => checkResources node req)) := by
    simp [simpleSelect, ALL]
  refine ⟨hall, ?_, ?_, ?_⟩
  · intro n
    rw [hall]
    simp only [Option.getD_some, List.mem_filter]
    constructor
    · rintro ⟨hmem, hchk⟩
      simp only [checkResources, Bool.and_eq_true, decide_eq_true_eq] at hchk
      obtain ⟨⟨⟨⟨hsrc, hst⟩, hcpu⟩, hmem'⟩, hdisk⟩ := hchk
      refine ⟨hmem, ?_, hst, hcpu, hmem', hdisk⟩
      intro i hi
      rw [hi] at hsrc
      simpa using hsrc
    · rintro ⟨hmem, hsrc, hst, hcpu, hmem', hdisk⟩
      refine ⟨hmem, ?_⟩
      simp only [checkResources, Bool.and_eq_true, decide_eq_true_eq]
      refine ⟨⟨⟨⟨?_, hst⟩, hcpu⟩, hmem'⟩, hdisk⟩
      cases h : req.srcId with
      | none => simp
      | some i => simpa using hsrc i h
  · intro l1 n l2 hsplit hn hl1
    have hfind : topo.nodes.find? (fun node => checkResources node req)
        = some n := by
      rw [hsplit]
      exact find?_append_cons _ l1 l2 n hl1 hn
    simp [simpleSelect, ALL, FIRST, hfind]
  · intro s hs1 hs2 hs3
    simp [simpleSelect, hs1, hs2, hs3]

/-- A concrete topology for witnesses: one eligible host, one ineligible. -/
def wNodeA : NodeQ :=
  { id := "h1", state := true, threshold := 0
    specs := { cpuCount := 4, cpuFree := 4, memoryTotal := 8192
               memoryFree := 8000, diskTotal := 100, diskFree := 100
               timestamp := 0 } }

def wNodeB : NodeQ :=
  { id := "h2", state := false, threshold := 0
    specs := { cpuCount := 4, cpuFree := 4, memoryTotal := 8192
               memoryFree := 8000, diskTotal := 100, diskFree := 100
               timestamp := 0 } }

def wReq : RequestQ :=
  { srcId := some "s1"
    cos := { maxDelay := 1, maxJitter := 1, maxLossRate := 1
             minBandwidth := 0, minCpu := 1, minRam := 512, minDisk := 1 } }

/-- Witness for C2 at a concrete topology and request. -/
theorem c2_simple_select_spec_witness :
    simpleSelect ⟨[wNodeA, wNodeB]⟩ wReq FIRST = some [wNodeA]
    ∧ simpleSelect ⟨[wNodeA, wNodeB]⟩ wReq BEST = some [] := by
  constructor
  · exact (c2_simple_select_spec ⟨[wNodeA, wNodeB]⟩ wReq).2.2.1
      [] wNodeA [wNodeB] rfl
      (by norm_num [checkResources, wNodeA, wReq]; decide)
      (by intro m hm; simp at hm)
  · exact (c2_simple_select_spec ⟨[wNodeA, wNodeB]⟩ wReq).2.2.2
      BEST (by simp [BEST]) (by simp [BEST, ALL]) (by simp [BEST, FIRST])

/-- C8: a dissected protocol frame (layers exactly Ether/IP/MyProtocol) is
accepted by `_is_request` iff it is addressed to the decoy MAC and IP,
carries a nonempty req_id, and originates from neither the decoy IP nor the
default address. -/
theorem c8_is_request_iff (decoyMac decoyIp : String) (f : PFrame)
    (hlayers : f.layers = [Layer.ether, Layer.ip, Layer.myProtocol]) :
    isRequest decoyMac decoyIp f = true
      ↔ f.ethDst = decoyMac ∧ f.ipDst = decoyIp ∧ f.reqId ≠ ""
        ∧ f.ipSrc ≠ decoyIp ∧ f.ipSrc ≠ DEFAULT_IP := by
  simp only [isRequest, hlayers, Bool.and_eq_true, decide_eq_true_eq]
  constructor
  · rintro ⟨⟨⟨⟨⟨⟨⟨⟨-, -⟩, -⟩, -⟩, h1⟩, h2⟩, h3⟩, h4⟩, h5⟩
    exact ⟨h3, h4, h5, h1, h2⟩
  · rintro ⟨h3, h4, h5, h1, h2⟩
    refine ⟨⟨⟨⟨⟨⟨⟨⟨?_, ?_⟩, ?_⟩, ?_⟩, h1⟩, h2⟩, h3⟩, h4⟩, h5⟩ <;> decide

/-- Witness for C8: an accepted frame and a rejected frame. -/
theorem c8_is_request_iff_witness :
    isRequest "m0" "10.0.0.100"
      ⟨[Layer.ether, Layer.ip, Layer.myProtocol],
        "m0", "10.0.0.2", "10.0.0.100", "req0000001"⟩ = true
    ∧ isRequest "m0" "10.0.0.100"
      ⟨[Layer.ether, Layer.ip, Layer.myProtocol],
        "m0", "10.0.0.100", "10.0.0.100", "req0000001"⟩ = false := by
  constructor
  · exact (c8_is_request_iff "m0" "10.0.0.100" _ rfl).2
      ⟨rfl, rfl, by decide, by decide, by decide⟩
  · by_contra h
    simp only [Bool.not_eq_false] at h
    have := (c8_is_request_iff "m0" "10.0.0.100"
      ⟨[Layer.ether, Layer.ip, Layer.myProtocol],
        "m0", "10.0.0.100", "10.0.0.100", "req0000001"⟩ rfl).1 h
    exact this.2.2.2.1 rfl

-- ============================================================
--  C3 : _DijkstraPathSelection.select (server/selection.py)
-- ============================================================

/-- An entry emitted by the path selectors: the Python dict with keys
`path` and `length`.  `path` is `none` in the BEST branch when no target is
reachable (Python `best_path = None`); `length` is an extended rational
(`float('inf')` is a legitimate value there). -/
structure DEntry where
  path : Option (List String)
  length : EQt
deriving DecidableEq, Repr

/-- Embedding of selection.py `insort` with `key = length` and
`reverse=False`: `bisect_left`-style sorted insertion, placing the new
entry before any existing entry of equal key. -/
def insortD : List DEntry → DEntry → List DEntry
  | [], x => [x]
  | e :: es, x =>
    if x.length ≤ e.length then x :: e :: es else e :: insortD es x

/-- The link specs read by the path selectors (model.py `LinkSpecs`),
restricted to finite (exact rational) readings. -/
structure LinkSel where
  capacity : ℚ
  bandwidth : ℚ
  delay : ℚ
  jitter : ℚ
  lossRate : ℚ
deriving DecidableEq, Repr

/-- The slice of the topology graph read by the path selectors: a directed
graph (networkx `DiGraph`) whose edge payload is the `Link` record. -/
structure SelGraph where
  nodes : List String
  edges : List (String × String × LinkSel)
deriving DecidableEq, Repr

/-- Edge payload lookup (`graph.succ[u][v]['link']`). -/
def SelGraph.link (g : SelGraph) (u v : String) : Option LinkSel :=
  (g.edges.find? (fun e => e.1 == u && e.2.1 == v)).map (fun e => e.2.2)

/-- Successors of `u` that are not in `visited`. -/
def SelGraph.succsNot (g : SelGraph) (u : String) (visited : List String) :
    List String :=
  g.edges.filterMap (fun e =>
    if e.1 == u && !(visited.contains e.2.1) then some e.2.1 else none)

/-- All simple paths starting at `u` that avoid `visited`, as node lists
beginning with `u`; `fuel` bounds the recursion depth. -/
def simplePathsAux (g : SelGraph) : Nat → String → List String →
    List (List String)
  | 0, u, _ => [[u]]
  | fuel + 1, u, visited =>
    [u] :: ((g.succsNot u (u :: visited)).flatMap (fun v =>
      (simplePathsAux g fuel v (u :: visited)).map (fun p => u :: p)))

/-- All simple paths from `s` to `t` in `g`. -/
def simplePaths (g : SelGraph) (s t : String) : List (List String) :=
  (simplePathsAux g g.nodes.length s []).filter
    (fun p => p.getLast? == some t)

/-- Total weight of a path under edge-weight function `w`; `none` when a
hop is not an edge of the graph. -/
def pathWeight (g : SelGraph) (w : LinkSel → ℚ) : List String → Option ℚ
  | u :: v :: rest =>
    (g.link u v).bind (fun l =>
      (pathWeight g w (v :: rest)).map (fun r => w l + r))
  | _ => some 0

/-- Candidate (path, weight) pairs from `s` to `t` within `cutoff`. -/
def ssspCands (g : SelGraph) (w : LinkSel → ℚ) (cutoff : EQt)
    (s t : String) : List (List String × ℚ) :=
  (simplePaths g s t).filterMap (fun p =>
    (pathWeight g w p).bind (fun d =>
      if (d : EQt) ≤ cutoff then some (p, d) else none))

/-- First minimum-weight element of a candidate list. -/
def minFirst (l : List (List String × ℚ)) : Option (List String × ℚ) :=
  l.foldl (fun acc pd =>
    match acc with
    | none => some pd
    | some best => if pd.2 < best.2 then some pd else some best) none

/-- Embedding of the networkx `single_source_dijkstra` call in
`_DijkstraPathSelection.select`, by the library's contract: for
nonnegative edge weights it returns, for each target, a minimum-weight
path and its weight, omitting targets whose distance exceeds `cutoff`
(`cutoff = ⊤` meaning no cutoff, i.e. Python `cutoff=None`). -/
def ssspEntry (g : SelGraph) (w : LinkSel → ℚ) (cutoff : EQt)
    (s t : String) : Option (List String × ℚ) :=
  minFirst (ssspCands g w cutoff s t)

/-- Path-weight names (selection.py `PATH_WEIGHTS`). -/
def HOP : String := "HOP"

def DELAY : String := "DELAY"

/-- Edge weight used by `_DijkstraPathSelection.select`: `link.get_delay()`
under DELAY, the constant 1 otherwise. -/
def dijWeight (weight : String) : LinkSel → ℚ :=
  fun l => if weight = DELAY then l.delay else 1

/-- Cutoff used by `_DijkstraPathSelection.select`: `req.get_max_delay()`
under DELAY, none (`⊤`) otherwise. -/
def dijCutoff (weight : String) (maxDelay : EQt) : EQt :=
  if weight = DELAY then maxDelay else ⊤

/-- The slice of the Request read by the Dijkstra selector. -/
structure DijReq where
  src : String
  maxDelay : EQt
deriving DecidableEq, Repr

/-- A target node as used by the path selectors (only `.id` is read). -/
structure SelTarget where
  id : String
deriving DecidableEq, Repr

/-- The ALL-branch fold of `_DijkstraPathSelection.select`: for each target
with a computed length, insort the (path, length) dict into the result. -/
def dijFoldAll (g : SelGraph) (w : LinkSel → ℚ) (cutoff : EQt) (src : String)
    (targets : List SelTarget) (acc : List DEntry) : List DEntry :=
  targets.foldl (fun ret tg =>
    match ssspEntry g w cutoff src tg.id with
    | some pd => insortD ret ⟨some pd.1, (pd.2 : EQt)⟩
    | none => ret) acc

/-- The BEST-branch fold of `_DijkstraPathSelection.select`: running
(best_length, best_path), starting from (inf, None), replaced on strict
improvement. -/
def dijFoldBest (g : SelGraph) (w : LinkSel → ℚ) (cutoff : EQt) (src : String)
    (targets : List SelTarget) (acc : EQt × Option (List String)) :
    EQt × Option (List String) :=
  targets.foldl (fun best tg =>
    match ssspEntry g w cutoff src tg.id with
    | some pd => if (pd.2 : EQt) < best.1 then ((pd.2 : EQt), some pd.1) else best
    | none => best) acc

/-- Embedding of `_DijkstraPathSelection.select` (selection.py lines
84-129). -/
def dijkstraSelect (g : SelGraph) (targets : List SelTarget) (req : DijReq)
    (weight strategy : String) : List DEntry :=
  if strategy = "" ∨ strategy = ALL then
    dijFoldAll g (dijWeight weight) (dijCutoff weight req.maxDelay)
      req.src targets []
  else if strategy = BEST then
    [⟨(dijFoldBest g (dijWeight weight) (dijCutoff weight req.maxDelay)
         req.src targets (⊤, none)).2,
      (dijFoldBest g (dijWeight weight) (dijCutoff weight req.maxDelay)
         req.src targets (⊤, none)).1⟩]
  else []

/-- Membership in a sorted insertion. -/
theorem mem_insortD (l : List DEntry) (x a : DEntry) :
    a ∈ insortD l x ↔ a = x ∨ a ∈ l := by
  induction l with
  | nil => simp [insortD]
  | cons e es ih =>
    by_cases h : x.length ≤ e.length
    · simp only [insortD, if_pos h, List.mem_cons]
    · simp only [insortD, if_neg h, List.mem_cons, ih]
      tauto

/-- `insort` puts the new entry right after the strictly smaller keys and
before every entry of equal or larger key. -/
theorem insortD_split (l : List DEntry) (x : DEntry) :
    ∃ l1 l2, insortD l x = l1 ++ x :: l2 ∧ l = l1 ++ l2
      ∧ ∀ e ∈ l1, e.length < x.length := by
  induction l with
  | nil => exact ⟨[], [], rfl, rfl, by simp⟩
  | cons e es ih =>
    by_cases h : x.length ≤ e.length
    · exact ⟨[], e :: es, by simp [insortD, h], rfl, by simp⟩
    · obtain ⟨l1, l2, h1, h2, h3⟩ := ih
      refine ⟨e :: l1, l2, ?_, ?_, ?_⟩
      · simp [insortD, h, h1]
      · simp [h2]
      · intro f hf
        rcases List.mem_cons.mp hf with rfl | hf
        · exact lt_of_not_le h
        · exact h3 f hf

/-- The old list survives a sorted insertion as a sublist. -/
theorem sublist_insortD (l : List DEntry) (x : DEntry) :
    List.Sublist l (insortD l x) := by
  obtain ⟨l1, l2, h1, h2, -⟩ := insortD_split l x
  rw [h1, h2]
  exact (List.sublist_cons_self x l2).append_left l1

/-- Sorted insertion preserves sortedness by length. -/
theorem sorted_insortD (l : List DEntry) (x : DEntry)
    (h : l.Sorted (fun a b => a.length ≤ b.length)) :
    (insortD l x).Sorted (fun a b => a.length ≤ b.length) := by
  induction l with
  | nil => simp [insortD]
  | cons e es ih =>
    rw [List.sorted_cons] at h
    obtain ⟨he, hes⟩ := h
    by_cases hx : x.length ≤ e.length
    · rw [show insortD (e :: es) x = x :: e :: es by simp [insortD, hx]]
      refine List.sorted_cons.mpr ⟨?_, List.sorted_cons.mpr ⟨he, hes⟩⟩
      intro b hb
      rcases List.mem_cons.mp hb with rfl | hb
      · exact hx
      · exact hx.trans (he b hb)
    · rw [show insortD (e :: es) x = e :: insortD es x by simp [insortD, hx]]
      refine List.sorted_cons.mpr ⟨?_, ih hes⟩
      intro b hb
      rcases (mem_insortD es x b).mp hb with rfl | hb
      · exact le_of_not_le hx
      · exact he b hb

/-- The running-minimum fold behind `minFirst`. -/
theorem minFirst_go (l : List (List String × ℚ)) (best r : List String × ℚ)
    (h : l.foldl (fun acc pd =>
        match acc with
        | none => some pd
        | some best => if pd.2 < best.2 then some pd else some best)
      (some best) = some r) :
    (r = best ∨ r ∈ l) ∧ r.2 ≤ best.2 ∧ ∀ qd ∈ l, r.2 ≤ qd.2 := by
  induction l generalizing best with
  | nil =>
    simp only [List.foldl_nil, Option.some.injEq] at h
    exact ⟨Or.inl h.symm, by rw [h], by simp⟩
  | cons pd rest ih =>
    rw [List.foldl_cons] at h
    dsimp only at h
    by_cases hlt : pd.2 < best.2
    · rw [if_pos hlt] at h
      obtain ⟨hmem, hle, hall⟩ := ih pd h
      refine ⟨?_, ?_, ?_⟩
      · rcases hmem with rfl | hmem
        · exact Or.inr (by simp)
        · exact Or.inr (by simp [hmem])
      · exact hle.trans hlt.le
      · intro qd hqd
        rcases List.mem_cons.mp hqd with rfl | hqd
        · exact hle
        · exact hall qd hqd
    · rw [if_neg hlt] at h
      obtain ⟨hmem, hle, hall⟩ := ih best h
      refine ⟨?_, hle, ?_⟩
      · rcases hmem with rfl | hmem
        · exact Or.inl rfl
        · exact Or.inr (by simp [hmem])
      · intro qd hqd
        rcases List.mem_cons.mp hqd with rfl | hqd
        · exact hle.trans (le_of_not_lt hlt)
        · exact hall qd hqd

/-- `minFirst` returns an element of the list of minimal weight. -/
theorem minFirst_spec (l : List (List String × ℚ)) (r : List String × ℚ)
    (h : minFirst l = some r) :
    r ∈ l ∧ ∀ qd ∈ l, r.2 ≤ qd.2 := by
  cases l with
  | nil => simp [minFirst] at h
  | cons pd rest =>
    rw [minFirst, List.foldl_cons] at h
    obtain ⟨hmem, hle, hall⟩ := minFirst_go rest pd r h
    refine ⟨?_, ?_⟩
    · rcases hmem with rfl | hmem
      · simp
      · simp [hmem]
    · intro qd hqd
      rcases List.mem_cons.mp hqd with rfl | hqd
      · exact hle
      · exact hall qd hqd

/-- Membership in the Dijkstra candidate list. -/
theorem ssspCands_mem (g : SelGraph) (w : LinkSel → ℚ) (c : EQt)
    (s t : String) (pd : List String × ℚ) :
    pd ∈ ssspCands g w c s t
      ↔ pd.1 ∈ simplePaths g s t ∧ pathWeight g w pd.1 = some pd.2
        ∧ (pd.2 : EQt) ≤ c := by
  obtain ⟨p, d⟩ := pd
  simp only [ssspCands, List.mem_filterMap, Option.bind_eq_some]
  constructor
  · rintro ⟨q, hq, dq, hdq, hif⟩
    by_cases hle : (dq : EQt) ≤ c
    · rw [if_pos hle] at hif
      obtain ⟨rfl, rfl⟩ := Prod.mk.injEq .. ▸ (Option.some.injEq .. ▸ hif)
      exact ⟨hq, hdq, hle⟩
    · rw [if_neg hle] at hif
      exact absurd hif (by simp)
  · rintro ⟨hp, hw, hle⟩
    exact ⟨p, hp, d, hw, by rw [if_pos hle]⟩

theorem dijFoldAll_nil (g : SelGraph) (w : LinkSel → ℚ) (c : EQt)
    (src : String) (acc : List DEntry) :
    dijFoldAll g w c src [] acc = acc := rfl

theorem dijFoldAll_cons (g : SelGraph) (w : LinkSel → ℚ) (c : EQt)
    (src : String) (tg : SelTarget) (tgs : List SelTarget)
    (acc : List DEntry) :
    dijFoldAll g w c src (tg :: tgs) acc
      = dijFoldAll g w c src tgs
          (match ssspEntry g w c src tg.id with
           | some pd => insortD acc ⟨some pd.1, (pd.2 : EQt)⟩
           | none => acc) := rfl

/-- Membership in the ALL-branch fold result. -/
theorem dijFoldAll_mem (g : SelGraph) (w : LinkSel → ℚ) (c : EQt)
    (src : String) (targets : List SelTarget) (acc : List DEntry)
    (a : DEntry) :
    a ∈ dijFoldAll g w c src targets acc
      ↔ a ∈ acc ∨ ∃ tg ∈ targets, ∃ p d,
          ssspEntry g w c src tg.id = some (p, d)
            ∧ a = ⟨some p, (d : EQt)⟩ := by
  induction targets generalizing acc with
  | nil => simp [dijFoldAll_nil]
  | cons tg tgs ih =>
    rw [dijFoldAll_cons]
    cases h : ssspEntry g w c src tg.id with
    | none =>
      rw [ih]
      constructor
      · rintro (ha | ⟨t, ht, p, d, hs, rfl⟩)
        · exact Or.inl ha
        · exact Or.inr ⟨t, by simp [ht], p, d, hs, rfl⟩
      · rintro (ha | ⟨t, ht, p, d, hs, rfl⟩)
        · exact Or.inl ha
        · rcases List.mem_cons.mp ht with rfl | ht
          · rw [h] at hs
            exact absurd hs (by simp)
          · exact Or.inr ⟨t, ht, p, d, hs, rfl⟩
    | some pd =>
      rw [ih]
      constructor
      · rintro (ha | ⟨t, ht, p, d, hs, rfl⟩)
        · rcases (mem_insortD acc _ a).mp ha with rfl | ha
          · exact Or.inr ⟨tg, by simp, pd.1, pd.2, by rw [h], rfl⟩
          · exact Or.inl ha
        · exact Or.inr ⟨t, by simp [ht], p, d, hs, rfl⟩
      · rintro (ha | ⟨t, ht, p, d, hs, rfl⟩)
        · exact Or.inl ((mem_insortD acc _ a).mpr (Or.inr ha))
        · rcases List.mem_cons.mp ht with rfl | ht
          · rw [h] at hs
            obtain rfl : pd = (p, d) := by simpa using hs
            exact Or.inl ((mem_insortD acc _ _).mpr (Or.inl rfl))
          · exact Or.inr ⟨t, ht, p, d, hs, rfl⟩

/-- The ALL-branch fold preserves sortedness by length. -/
theorem dijFoldAll_sorted (g : SelGraph) (w : LinkSel → ℚ) (c : EQt)
    (src : String) (targets : List SelTarget) (acc : List DEntry)
    (h : acc.Sorted (fun a b => a.length ≤ b.length)) :
    (dijFoldAll g w c src targets acc).Sorted
      (fun a b => a.length ≤ b.length) := by
  induction targets generalizing acc with
  | nil => simpa [dijFoldAll_nil] using h
  | cons tg tgs ih =>
    rw [dijFoldAll_cons]
    cases hs : ssspEntry g w c src tg.id with
    | none => exact ih acc h
    | some pd => exact ih _ (sorted_insortD acc _ h)

/-- The ALL-branch fold only ever inserts: the accumulator survives as a
sublist. -/
theorem sublist_dijFoldAll (g : SelGraph) (w : LinkSel → ℚ) (c : EQt)
    (src : String) (targets : List SelTarget) (acc : List DEntry) :
    List.Sublist acc (dijFoldAll g w c src targets acc) := by
  induction targets generalizing acc with
  | nil => simp [dijFoldAll_nil]
  | cons tg tgs ih =>
    rw [dijFoldAll_cons]
    cases hs : ssspEntry g w c src tg.id with
    | none => exact ih acc
    | some pd => exact (sublist_insortD acc _).trans (ih _)

/-- In the ALL-branch fold, an equal-length entry inserted later lands
before one already present. -/
theorem dijFoldAll_tie (g : SelGraph) (w : LinkSel → ℚ) (c : EQt)
    (src : String) (l2 l3 : List SelTarget) (t2 : SelTarget)
    (acc : List DEntry) (e1 : DEntry) (p2 : List String) (d2 : ℚ)
    (he1 : e1 ∈ acc)
    (hs2 : ssspEntry g w c src t2.id = some (p2, d2))
    (heq : (d2 : EQt) = e1.length) :
    List.Sublist [⟨some p2, (d2 : EQt)⟩, e1]
      (dijFoldAll g w c src (l2 ++ t2 :: l3) acc) := by
  induction l2 generalizing acc with
  | nil =>
    rw [List.nil_append, dijFoldAll_cons, hs2]
    have hstep : List.Sublist [(⟨some p2, (d2 : EQt)⟩ : DEntry), e1]
        (insortD acc ⟨some p2, (d2 : EQt)⟩) := by
      obtain ⟨L1, L2, hins, hacc, hlt⟩ :=
        insortD_split acc ⟨some p2, (d2 : EQt)⟩
      rw [hins]
      have he1' : e1 ∈ L2 := by
        rw [hacc] at he1
        rcases List.mem_append.mp he1 with hmem | hmem
        · exact absurd (hlt e1 hmem) (by simp [heq])
        · exact hmem
      exact ((List.singleton_sublist.mpr he1').cons₂ _).trans
        (List.sublist_append_right L1 _)
    exact hstep.trans (sublist_dijFoldAll g w c src l3 _)
  | cons m l2' ih =>
    rw [List.cons_append, dijFoldAll_cons]
    cases hm : ssspEntry g w c src m.id with
    | none => exact ih acc he1
    | some pd =>
      exact ih _ ((mem_insortD acc _ e1).mpr (Or.inr he1))

theorem dijFoldBest_nil (g : SelGraph) (w : LinkSel → ℚ) (c : EQt)
    (src : String) (acc : EQt × Option (List String)) :
    dijFoldBest g w c src [] acc = acc := rfl

theorem dijFoldBest_cons (g : SelGraph) (w : LinkSel → ℚ) (c : EQt)
    (src : String) (tg : SelTarget) (tgs : List SelTarget)
    (acc : EQt × Option (List String)) :
    dijFoldBest g w c src (tg :: tgs) acc
      = dijFoldBest g w c src tgs
          (match ssspEntry g w c src tg.id with
           | some pd =>
             if (pd.2 : EQt) < acc.1 then ((pd.2 : EQt), some pd.1) else acc
           | none => acc) := rfl

/-- Characterization of the BEST-branch fold: either no target improves on
the accumulator and it is returned unchanged, or the result carries the
minimum length together with the path of the first target attaining it. -/
theorem dijFoldBest_gen (g : SelGraph) (w : LinkSel → ℚ) (c : EQt)
    (src : String) (targets : List SelTarget)
    (acc : EQt × Option (List String)) :
    (dijFoldBest g w c src targets acc = acc
      ∧ ∀ tg ∈ targets, ∀ p d,
          ssspEntry g w c src tg.id = some (p, d) → acc.1 ≤ (d : EQt))
    ∨ (∃ l1 tg l2 p d, targets = l1 ++ tg :: l2
        ∧ ssspEntry g w c src tg.id = some (p, d)
        ∧ (dijFoldBest g w c src targets acc).1 = (d : EQt)
        ∧ (dijFoldBest g w c src targets acc).2 = some p
        ∧ (d : EQt) < acc.1
        ∧ (∀ tg' ∈ l1, ∀ p' d', ssspEntry g w c src tg'.id = some (p', d')
            → (d : EQt) < (d' : EQt))
        ∧ (∀ tg' ∈ targets, ∀ p' d',
            ssspEntry g w c src tg'.id = some (p', d')
            → (d : EQt) ≤ (d' : EQt))) := by
  induction targets generalizing acc with
  | nil => exact Or.inl ⟨dijFoldBest_nil g w c src acc, by simp⟩
  | cons tg tgs ih =>
    rw [dijFoldBest_cons]
    cases hs : ssspEntry g w c src tg.id with
    | none =>
      rcases ih acc with ⟨heq, hge⟩ | ⟨l1, t, l2, p, d, hsplit, ht, h1, h2, hlt, hbefore, hmin⟩
      · refine Or.inl ⟨heq, ?_⟩
        intro t ht p d hsd
        rcases List.mem_cons.mp ht with rfl | ht
        · rw [hs] at hsd
          exact absurd hsd (by simp)
        · exact hge t ht p d hsd
      · refine Or.inr ⟨tg :: l1, t, l2, p, d, by simp [hsplit], ht, h1, h2, hlt,
          ?_, ?_⟩
        · intro t' ht' p' d' hsd'
          rcases List.mem_cons.mp ht' with rfl | ht'
          · rw [hs] at hsd'
            exact absurd hsd' (by simp)
          · exact hbefore t' ht' p' d' hsd'
        · intro t' ht' p' d' hsd'
          rcases List.mem_cons.mp ht' with rfl | ht'
          · rw [hs] at hsd'
            exact absurd hsd' (by simp)
          · exact hmin t' (hsplit ▸ ht') p' d' hsd'
    | some pd =>
      dsimp only
      by_cases hlt0 : (pd.2 : EQt) < acc.1
      · rw [if_pos hlt0]
        rcases ih ((pd.2 : EQt), some pd.1) with ⟨heq, hge⟩ |
          ⟨l1, t, l2, p, d, hsplit, ht, h1, h2, hlt, hbefore, hmin⟩
        · refine Or.inr ⟨[], tg, tgs, pd.1, pd.2, by simp, hs, ?_, ?_, hlt0,
            by simp, ?_⟩
          · rw [heq]
          · rw [heq]
          · intro t' ht' p' d' hsd'
            rcases List.mem_cons.mp ht' with rfl | ht'
            · rw [hs] at hsd'
              obtain rfl : pd = (p', d') := by simpa using hsd'
              exact le_refl _
            · exact hge t' ht' p' d' hsd'
        · refine Or.inr ⟨tg :: l1, t, l2, p, d, by simp [hsplit], ht, h1, h2,
            hlt.trans hlt0, ?_, ?_⟩
          · intro t' ht' p' d' hsd'
            rcases List.mem_cons.mp ht' with rfl | ht'
            · rw [hs] at hsd'
              obtain rfl : pd = (p', d') := by simpa using hsd'
              exact hlt
            · exact hbefore t' ht' p' d' hsd'
          · intro t' ht' p' d' hsd'
            rcases List.mem_cons.mp ht' with rfl | ht'
            · rw [hs] at hsd'
              obtain rfl : pd = (p', d') := by simpa using hsd'
              exact hlt.le
            · exact hmin t' (hsplit ▸ ht') p' d' hsd'
      · rw [if_neg hlt0]
        rcases ih acc with ⟨heq, hge⟩ |
          ⟨l1, t, l2, p, d, hsplit, ht, h1, h2, hlt, hbefore, hmin⟩
        · refine Or.inl ⟨heq, ?_⟩
          intro t ht' p d hsd
          rcases List.mem_cons.mp ht' with rfl | ht'
          · rw [hs] at hsd
            obtain rfl : pd = (p, d) := by simpa using hsd
            exact le_of_not_lt hlt0
          · exact hge t ht' p d hsd
        · refine Or.inr ⟨tg :: l1, t, l2, p, d, by simp [hsplit], ht, h1, h2,
            hlt, ?_, ?_⟩
          · intro t' ht' p' d' hsd'
            rcases List.mem_cons.mp ht' with rfl | ht'
            · rw [hs] at hsd'
              obtain rfl : pd = (p', d') := by simpa using hsd'
              exact hlt.trans_le (le_of_not_lt hlt0)
            · exact hbefore t' ht' p' d' hsd'
          · intro t' ht' p' d' hsd'
            rcases List.mem_cons.mp ht' with rfl | ht'
            · rw [hs] at hsd'
              obtain rfl : pd = (p', d') := by simpa using hsd'
              exact (hlt.trans_le (le_of_not_lt hlt0)).le
            · exact hmin t' (hsplit ▸ ht') p' d' hsd'

theorem dijFoldAll_append (g : SelGraph) (w : LinkSel → ℚ) (c : EQt)
    (src : String) (u v : List SelTarget) (acc : List DEntry) :
    dijFoldAll g w c src (u ++ v) acc
      = dijFoldAll g w c src v (dijFoldAll g w c src u acc) :=
  List.foldl_append ..

/-- C3 (amended): the DIJKSTRA selector computes minimum-weight simple
paths (weight 1 under HOP, link delay under DELAY, cutoff req.max_delay
under DELAY); under ALL it returns the reachable targets sorted by
ascending length, a later-listed target of equal length placed BEFORE an
earlier one; under BEST it returns the single entry of the first target in
list order attaining the minimum length (inf and no path when no target is
reachable); an unsupported strategy yields an empty result.  Ties are NOT
broken by target id. -/
theorem c3_dijkstra_select_spec (g : SelGraph) (targets : List SelTarget)
    (req : DijReq) (weight : String) :
    ((dijkstraSelect g targets req weight ALL).Sorted
        (fun a b => a.length ≤ b.length))
    ∧ (∀ e, e ∈ dijkstraSelect g targets req weight ALL
        ↔ ∃ tg ∈ targets, ∃ p d,
            ssspEntry g (dijWeight weight) (dijCutoff weight req.maxDelay)
              req.src tg.id = some (p, d)
            ∧ e = ⟨some p, (d : EQt)⟩)
    ∧ (∀ t p d,
        ssspEntry g (dijWeight weight) (dijCutoff weight req.maxDelay)
          req.src t = some (p, d)
        → p ∈ simplePaths g req.src t
          ∧ pathWeight g (dijWeight weight) p = some d
          ∧ (d : EQt) ≤ dijCutoff weight req.maxDelay
          ∧ ∀ q dq, q ∈ simplePaths g req.src t
            → pathWeight g (dijWeight weight) q = some dq
            → (dq : EQt) ≤ dijCutoff weight req.maxDelay
            → d ≤ dq)
    ∧ (∀ l1 t1 l2 t2 l3 p1 d1 p2 d2,
        targets = l1 ++ t1 :: (l2 ++ t2 :: l3)
        → ssspEntry g (dijWeight weight) (dijCutoff weight req.maxDelay)
            req.src t1.id = some (p1, d1)
        → ssspEntry g (dijWeight weight) (dijCutoff weight req.maxDelay)
            req.src t2.id = some (p2, d2)
        → d1 = d2
        → List.Sublist [⟨some p2, (d2 : EQt)⟩, ⟨some p1, (d1 : EQt)⟩]
            (dijkstraSelect g targets req weight ALL))
    ∧ (∃ e, dijkstraSelect g targets req weight BEST = [e]
        ∧ (∀ tg ∈ targets, ∀ p d,
            ssspEntry g (dijWeight weight) (dijCutoff weight req.maxDelay)
              req.src tg.id = some (p, d) → e.length ≤ (d : EQt))
        ∧ (e.length = ⊤ → e.path = none
            ∧ ∀ tg ∈ targets,
                ssspEntry g (dijWeight weight)
                  (dijCutoff weight req.maxDelay) req.src tg.id = none)
        ∧ (e.length ≠ ⊤ → ∃ l1 tg l2 p d, targets = l1 ++ tg :: l2
            ∧ ssspEntry g (dijWeight weight) (dijCutoff weight req.maxDelay)
                req.src tg.id = some (p, d)
            ∧ (d : EQt) = e.length ∧ e.path = some p
            ∧ ∀ tg' ∈ l1, ∀ p' d',
                ssspEntry g (dijWeight weight)
                  (dijCutoff weight req.maxDelay) req.src tg'.id
                  = some (p', d')
                → e.length < (d' : EQt)))
    ∧ (∀ s, s ≠ "" → s ≠ ALL → s ≠ BEST
        → dijkstraSelect g targets req weight s = []) := by
  have hALL : dijkstraSelect g targets req weight ALL
      = dijFoldAll g (dijWeight weight) (dijCutoff weight req.maxDelay)
          req.src targets [] := by
    rw [dijkstraSelect, if_pos (Or.inr rfl)]
  have hBEST : dijkstraSelect g targets req weight BEST
      = [⟨(dijFoldBest g (dijWeight weight) (dijCutoff weight req.maxDelay)
             req.src targets (⊤, none)).2,
          (dijFoldBest g (dijWeight weight) (dijCutoff weight req.maxDelay)
             req.src targets (⊤, none)).1⟩] := by
    rw [dijkstraSelect, if_neg (by simp [BEST, ALL]), if_pos rfl]
  refine ⟨?_, ?_, ?_, ?_, ?_, ?_⟩
  · rw [hALL]
    exact dijFoldAll_sorted g _ _ req.src targets [] (by simp)
  · intro e
    rw [hALL, dijFoldAll_mem]
    simp
  · intro t p d h
    obtain ⟨hmem, hmin⟩ := minFirst_spec _ _ h
    obtain ⟨hp, hw, hc⟩ := (ssspCands_mem g _ _ req.src t (p, d)).mp hmem
    refine ⟨hp, hw, hc, ?_⟩
    intro q dq hq hwq hcq
    exact hmin (q, dq) ((ssspCands_mem g _ _ req.src t (q, dq)).mpr ⟨hq, hwq, hcq⟩)
  · intro l1 t1 l2 t2 l3 p1 d1 p2 d2 hsplit hs1 hs2 hd
    have hshape : l1 ++ t1 :: (l2 ++ t2 :: l3)
        = (l1 ++ [t1]) ++ (l2 ++ t2 :: l3) := by simp
    rw [hALL, hsplit, hshape, dijFoldAll_append]
    have he1 : (⟨some p1, (d1 : EQt)⟩ : DEntry)
        ∈ dijFoldAll g (dijWeight weight) (dijCutoff weight req.maxDelay)
            req.src (l1 ++ [t1]) [] := by
      rw [dijFoldAll_mem]
      exact Or.inr ⟨t1, by simp, p1, d1, hs1, rfl⟩
    exact dijFoldAll_tie g _ _ req.src l2 l3 t2 _ _ p2 d2 he1 hs2
      (by rw [hd])
  · rw [hBEST]
    rcases dijFoldBest_gen g (dijWeight weight)
        (dijCutoff weight req.maxDelay) req.src targets (⊤, none) with
      ⟨heq, hge⟩ | ⟨l1, tg, l2, p, d, hsplit, ht, h1, h2, hlt, hbefore, hmin⟩
    · refine ⟨⟨none, ⊤⟩, by rw [heq], ?_, ?_, ?_⟩
      · intro tg htg p d hsd
        exact absurd ((hge tg htg p d hsd).trans_lt
          (WithTop.coe_lt_top d)) (lt_irrefl _)
      · intro _
        refine ⟨rfl, ?_⟩
        intro tg htg
        cases hsd : ssspEntry g (dijWeight weight)
            (dijCutoff weight req.maxDelay) req.src tg.id with
        | none => rfl
        | some pd =>
          exact absurd ((hge tg htg pd.1 pd.2 (by rw [hsd])).trans_lt
            (WithTop.coe_lt_top pd.2)) (lt_irrefl _)
      · intro htop
        exact absurd rfl htop
    · refine ⟨⟨some p, (d : EQt)⟩, ?_, ?_, ?_, ?_⟩
      · rw [show (dijFoldBest g (dijWeight weight)
            (dijCutoff weight req.maxDelay) req.src targets (⊤, none))
            = ((d : EQt), some p) from Prod.ext h1 h2]
      · intro tg' htg' p' d' hsd'
        exact hmin tg' htg' p' d' hsd'
      · intro htop
        exact absurd htop (WithTop.coe_ne_top)
      · intro _
        exact ⟨l1, tg, l2, p, d, hsplit, ht, rfl, rfl, hbefore⟩
  · intro s h1 h2 h3
    rw [dijkstraSelect, if_neg (by simp [h1, h2]), if_neg h3]

/-- A unit-delay link for the C3 example graph. -/
def lkC3 : LinkSel := ⟨0, 0, 1, 0, 0⟩

/-- Example graph: `s` with direct edges to `a` and to `b`. -/
def gC3 : SelGraph := ⟨["s", "a", "b"], [("s", "a", lkC3), ("s", "b", lkC3)]⟩

/-- C3 counterexample: targets `a`, `b` (ids ascending) both at distance 1
from `s`; under ALL the selector returns the entry for `b` BEFORE the entry
for `a`, so the tie is not broken by target id ascending. -/
theorem c3_tie_break_cex :
    dijkstraSelect gC3 [⟨"a"⟩, ⟨"b"⟩] ⟨"s", ⊤⟩ HOP ALL
      = [⟨some ["s", "b"], ((1 : ℚ) : EQt)⟩,
         ⟨some ["s", "a"], ((1 : ℚ) : EQt)⟩]
    ∧ "a" < "b" := by
  constructor
  · simp [dijkstraSelect, ALL, HOP, DELAY, dijWeight, dijCutoff, dijFoldAll,
      ssspEntry, ssspCands, simplePaths, simplePathsAux, SelGraph.succsNot,
      SelGraph.link, pathWeight, minFirst, insortD, gC3, lkC3]
  · simp only [String.lt_iff_toList_lt]
    exact List.Lex.rel (by decide)

/-- Witness for C3 at the example graph: the tie clause and the
unsupported-strategy clause, instantiated. -/
theorem c3_dijkstra_select_spec_witness :
    List.Sublist
      [⟨some ["s", "b"], ((1 : ℚ) : EQt)⟩, ⟨some ["s", "a"], ((1 : ℚ) : EQt)⟩]
      (dijkstraSelect gC3 [⟨"a"⟩, ⟨"b"⟩] ⟨"s", ⊤⟩ HOP ALL)
    ∧ dijkstraSelect gC3 [⟨"a"⟩, ⟨"b"⟩] ⟨"s", ⊤⟩ HOP FIRST = [] := by
  have hA : ssspEntry gC3 (dijWeight HOP) (dijCutoff HOP (⊤ : EQt)) "s" "a"
      = some (["s", "a"], 1) := by
    simp [HOP, DELAY, dijWeight, dijCutoff, ssspEntry, ssspCands, simplePaths,
      simplePathsAux, SelGraph.succsNot, SelGraph.link, pathWeight, minFirst,
      gC3, lkC3]
  have hB : ssspEntry gC3 (dijWeight HOP) (dijCutoff HOP (⊤ : EQt)) "s" "b"
      = some (["s", "b"], 1) := by
    simp [HOP, DELAY, dijWeight, dijCutoff, ssspEntry, ssspCands, simplePaths,
      simplePathsAux, SelGraph.succsNot, SelGraph.link, pathWeight, minFirst,
      gC3, lkC3]
  constructor
  · exact (c3_dijkstra_select_spec gC3 [⟨"a"⟩, ⟨"b"⟩] ⟨"s", ⊤⟩ HOP).2.2.2.1
      [] ⟨"a"⟩ [] ⟨"b"⟩ [] ["s", "a"] 1 ["s", "b"] 1 rfl hA hB rfl
  · exact (c3_dijkstra_select_spec gC3 [⟨"a"⟩, ⟨"b"⟩] ⟨"s", ⊤⟩
      HOP).2.2.2.2.2 FIRST (by decide) (by decide) (by decide)

-- ============================================================
--  C4 : _LeastCostPathSelection.select (server/selection.py)
-- ============================================================

/-- Checked rational division: Python float division raises
ZeroDivisionError on a zero denominator, which the selector's bare
`except` turns into `float('inf')`. -/
def qdiv (a b : ℚ) : Except Unit ℚ :=
  if b = 0 then Except.error () else Except.ok (a / b)

/-- `Dp`: sum of link delays along the path (calc_cost loop). -/
def costDp (links : List LinkSel) : ℚ := (links.map (fun l => l.delay)).sum

/-- `Jp`: sum of link jitters along the path. -/
def costJp (links : List LinkSel) : ℚ := (links.map (fun l => l.jitter)).sum

/-- `LRp` after the loop and the final `1 - LRp`. -/
def costLRp (links : List LinkSel) : ℚ :=
  1 - (links.map (fun l => 1 - l.lossRate)).prod

/-- `LRp` after the zero-substitution: if it is 0 it is replaced by the
request's max_loss_rate before dividing. -/
def costLRpEff (cos : CoSQ) (links : List LinkSel) : ℚ :=
  if costLRp links = 0 then cos.maxLossRate else costLRp links

/-- `Ct`: minimum link capacity along the path (`none` is the initial
`float('inf')` of an empty edge list). -/
def costCt (links : List LinkSel) : Option ℚ :=
  (links.map (fun l => l.capacity)).min?

/-- `Bw`: total used bandwidth, sum of capacity − free bandwidth. -/
def costBw (links : List LinkSel) : ℚ :=
  (links.map (fun l => l.capacity - l.bandwidth)).sum

/-- The `CBWp` denominator `Ct − (Bw + BWc)`. -/
def costDen (cos : CoSQ) (links : List LinkSel) : ℚ :=
  (costCt links).getD 0 - (costBw links + cos.minBandwidth)

/-- The product `CDp · CJp · CLRp` (with total field division; it only
names a value when the three checked divisions succeeded). -/
def costProd (cos : CoSQ) (links : List LinkSel) : ℚ :=
  (cos.maxDelay / costDp links) * (cos.maxJitter / costJp links)
    * (cos.maxLossRate / costLRpEff cos links)

/-- Embedding of `calc_cost` (selection.py lines 135-167), on the list of
links of the path.  The aggregates are computed by one loop, then the
checked divisions run in source order (CDp, CJp, CLRp, CBWp, final cost).
`Ct` starts at `float('inf')`; the `.getD 0` default is only reachable for
an empty edge list, where the CDp division has already raised (Dp = 0). -/
def calcCost (cos : CoSQ) (links : List LinkSel) : Except Unit ℚ := do
  let cdp ← qdiv cos.maxDelay (costDp links)
  let cjp ← qdiv cos.maxJitter (costJp links)
  let clrp ← qdiv cos.maxLossRate (costLRpEff cos links)
  let cbwp ← qdiv cos.minBandwidth (costDen cos links)
  qdiv cbwp (cdp * cjp * clrp)

/-- The per-path `try/except` of the LEASTCOST select loop: any exception
yields `float('inf')`.  Total by construction. -/
def pathCost (cos : CoSQ) (links : List LinkSel) : EQt :=
  match calcCost cos links with
  | Except.error _ => ⊤
  | Except.ok q => (q : EQt)

/-- The links along a path; `none` when a hop is not an edge (in Python,
`get_link` returns `None` and the attribute access raises, landing in the
same `except`). -/
def linksOf (g : SelGraph) : List String → Option (List LinkSel)
  | u :: v :: rest =>
    (g.link u v).bind (fun l => (linksOf g (v :: rest)).map (fun r => l :: r))
  | _ => some []

/-- Cost of a path in the graph, exceptions included. -/
def pathCostOf (g : SelGraph) (cos : CoSQ) (p : List String) : EQt :=
  match linksOf g p with
  | some links => pathCost cos links
  | none => ⊤

/-- Embedding of the networkx `all_simple_paths(graph, src, targets)` call:
all simple paths from `src` whose last node is one of the targets. -/
def allSimplePathsTo (g : SelGraph) (src : String)
    (targets : List SelTarget) : List (List String) :=
  (simplePathsAux g g.nodes.length src []).filter
    (fun p => targets.any (fun t => p.getLast? == some t.id))

/-- The ALL-branch fold of `_LeastCostPathSelection.select`: every
enumerated path is insorted with its (possibly infinite) cost. -/
def lcFoldAll (g : SelGraph) (cos : CoSQ) (paths : List (List String))
    (acc : List DEntry) : List DEntry :=
  paths.foldl (fun ret p => insortD ret ⟨some p, pathCostOf g cos p⟩) acc

/-- Embedding of `_LeastCostPathSelection.select` (selection.py lines
133-206), ALL and BEST branches. -/
def leastCostSelect (g : SelGraph) (targets : List SelTarget) (src : String)
    (cos : CoSQ) (strategy : String) : List DEntry :=
  if strategy = "" ∨ strategy = ALL then
    lcFoldAll g cos (allSimplePathsTo g src targets) []
  else if strategy = BEST then
    [⟨((allSimplePathsTo g src targets).foldl
        (fun best p =>
          if pathCostOf g cos p < best.1 then (pathCostOf g cos p, some p)
          else best) ((⊤ : EQt), none)).2,
      ((allSimplePathsTo g src targets).foldl
        (fun best p =>
          if pathCostOf g cos p < best.1 then (pathCostOf g cos p, some p)
          else best) ((⊤ : EQt), none)).1⟩]
  else []

/-- Membership in the LEASTCOST ALL fold. -/
theorem lcFoldAll_mem (g : SelGraph) (cos : CoSQ)
    (paths : List (List String)) (acc : List DEntry) (a : DEntry) :
    a ∈ lcFoldAll g cos paths acc
      ↔ a ∈ acc ∨ ∃ p ∈ paths, a = ⟨some p, pathCostOf g cos p⟩ := by
  induction paths generalizing acc with
  | nil => simp [lcFoldAll]
  | cons p ps ih =>
    rw [show lcFoldAll g cos (p :: ps) acc
        = lcFoldAll g cos ps (insortD acc ⟨some p, pathCostOf g cos p⟩)
      from rfl, ih]
    constructor
    · rintro (ha | ⟨q, hq, rfl⟩)
      · rcases (mem_insortD acc _ a).mp ha with rfl | ha
        · exact Or.inr ⟨p, by simp, rfl⟩
        · exact Or.inl ha
      · exact Or.inr ⟨q, by simp [hq], rfl⟩
    · rintro (ha | ⟨q, hq, rfl⟩)
      · exact Or.inl ((mem_insortD acc _ a).mpr (Or.inr ha))
      · rcases List.mem_cons.mp hq with rfl | hq
        · exact Or.inl ((mem_insortD acc _ _).mpr (Or.inl rfl))
        · exact Or.inr ⟨q, hq, rfl⟩

/-- `calcCost` raises exactly when one of the five divisions divides by
zero. -/
theorem calcCost_eq_error_iff (cos : CoSQ) (links : List LinkSel) :
    calcCost cos links = Except.error ()
      ↔ costDp links = 0 ∨ costJp links = 0 ∨ costLRpEff cos links = 0
        ∨ costDen cos links = 0 ∨ costProd cos links = 0 := by
  by_cases h1 : costDp links = 0
  · simp [calcCost, qdiv, h1, Except.bind, Bind.bind]
  · by_cases h2 : costJp links = 0
    · simp [calcCost, qdiv, h1, h2, Except.bind, Bind.bind]
    · by_cases h3 : costLRpEff cos links = 0
      · simp [calcCost, qdiv, h1, h2, h3, Except.bind, Bind.bind]
      · by_cases h4 : costDen cos links = 0
        · simp [calcCost, qdiv, h1, h2, h3, h4, Except.bind, Bind.bind]
        · by_cases h5 : costProd cos links = 0
          · have hp : cos.maxDelay / costDp links
                * (cos.maxJitter / costJp links)
                * (cos.maxLossRate / costLRpEff cos links) = 0 := h5
            simp [calcCost, qdiv, h1, h2, h3, h4, h5, hp, Except.bind,
              Bind.bind]
          · have hp : cos.maxDelay / costDp links
                * (cos.maxJitter / costJp links)
                * (cos.maxLossRate / costLRpEff cos links) ≠ 0 := h5
            simp [calcCost, qdiv, h1, h2, h3, h4, h5, hp, Except.bind,
              Bind.bind]

/-- When every division is defined `calcCost` returns the source formula
`CBWp / (CDp · CJp · CLRp)`. -/
theorem calcCost_eq_ok (cos : CoSQ) (links : List LinkSel)
    (h1 : costDp links ≠ 0) (h2 : costJp links ≠ 0)
    (h3 : costLRpEff cos links ≠ 0) (h4 : costDen cos links ≠ 0)
    (h5 : costProd cos links ≠ 0) :
    calcCost cos links
      = Except.ok
          (cos.minBandwidth / costDen cos links / costProd cos links) := by
  have hp : cos.maxDelay / costDp links * (cos.maxJitter / costJp links)
      * (cos.maxLossRate / costLRpEff cos links) ≠ 0 := h5
  simp [calcCost, qdiv, h1, h2, h3, h4, hp, costProd, Except.bind, Bind.bind]

/-- C4 (amended): the LEASTCOST cost evaluation is total — every simple
path receives a defined cost and no exception escapes the selector; the
cost is +∞ exactly when a division by zero occurs (Dp = 0, Jp = 0, the
SUBSTITUTED loss aggregate = 0, the CBWp denominator = 0, or the final
cost-product = 0); a NEGATIVE CBWp denominator does NOT give +∞: it gives
the finite cost BWc/den/(CDp·CJp·CLRp), negative under positive specs.
(LRp = 0 alone does not give +∞ either: it is replaced by max_loss_rate
before dividing.) -/
theorem c4_leastcost_cost_spec (g : SelGraph) (cos : CoSQ)
    (links : List LinkSel) :
    (pathCost cos links = ⊤
      ↔ costDp links = 0 ∨ costJp links = 0 ∨ costLRpEff cos links = 0
        ∨ costDen cos links = 0 ∨ costProd cos links = 0)
    ∧ (costDp links ≠ 0 → costJp links ≠ 0 → costLRpEff cos links ≠ 0
        → costDen cos links ≠ 0 → costProd cos links ≠ 0
        → pathCost cos links
            = ((cos.minBandwidth / costDen cos links / costProd cos links
                : ℚ) : EQt))
    ∧ (costDen cos links < 0 → 0 < costDp links → 0 < costJp links
        → 0 < costLRpEff cos links → 0 < cos.maxDelay → 0 < cos.maxJitter
        → 0 < cos.maxLossRate → 0 < cos.minBandwidth
        → ∃ q : ℚ, q < 0 ∧ pathCost cos links = (q : EQt))
    ∧ (∀ targets src e, e ∈ leastCostSelect g targets src cos ALL
        ↔ ∃ p ∈ allSimplePathsTo g src targets,
            e = ⟨some p, pathCostOf g cos p⟩) := by
  have hval : costDp links ≠ 0 → costJp links ≠ 0
      → costLRpEff cos links ≠ 0 → costDen cos links ≠ 0
      → costProd cos links ≠ 0
      → pathCost cos links
          = ((cos.minBandwidth / costDen cos links / costProd cos links
              : ℚ) : EQt) := by
    intro h1 h2 h3 h4 h5
    unfold pathCost
    rw [calcCost_eq_ok cos links h1 h2 h3 h4 h5]
  refine ⟨?_, hval, ?_, ?_⟩
  · constructor
    · intro htop
      cases hc : calcCost cos links with
      | error e =>
        cases e
        exact (calcCost_eq_error_iff cos links).mp hc
      | ok q =>
        exfalso
        have hq : pathCost cos links = (q : EQt) := by
          unfold pathCost
          rw [hc]
        rw [hq] at htop
        exact WithTop.coe_ne_top htop
    · intro hconds
      have herr : calcCost cos links = Except.error () :=
        (calcCost_eq_error_iff cos links).mpr hconds
      unfold pathCost
      rw [herr]
  · intro hden h1 h2 h3 hd hj hl hbw
    have hprodpos : 0 < costProd cos links := by
      have := mul_pos (mul_pos (div_pos hd h1) (div_pos hj h2))
        (div_pos hl h3)
      simpa [costProd] using this
    refine ⟨cos.minBandwidth / costDen cos links / costProd cos links, ?_, ?_⟩
    · exact div_neg_of_neg_of_pos (div_neg_of_pos_of_neg hbw hden) hprodpos
    · exact hval (ne_of_gt h1) (ne_of_gt h2) (ne_of_gt h3) (ne_of_lt hden)
        (ne_of_gt hprodpos)
  · intro targets src e
    rw [show leastCostSelect g targets src cos ALL
        = lcFoldAll g cos (allSimplePathsTo g src targets) [] by
      rw [leastCostSelect, if_pos (Or.inr rfl)]]
    rw [lcFoldAll_mem]
    simp

/-- CoS for the C4 counterexample. -/
def cosC4 : CoSQ :=
  { maxDelay := 1, maxJitter := 1, maxLossRate := 1, minBandwidth := 5
    minCpu := 0, minRam := 0, minDisk := 0 }

/-- Single path link for the C4 counterexample: capacity 1, free bandwidth
0, delay 1, jitter 1, loss 0. -/
def lkC4 : LinkSel := ⟨1, 0, 1, 1, 0⟩

/-- C4 counterexample: on this one-link path the CBWp denominator is
Ct − (Bw + BWc) = 1 − (1 + 5) = −5 < 0, yet the path's cost is the finite
NEGATIVE value −1, not +∞ as the claim states. -/
theorem c4_negative_denominator_cex :
    costDen cosC4 [lkC4] < 0
    ∧ pathCost cosC4 [lkC4] = ((-1 : ℚ) : EQt)
    ∧ pathCost cosC4 [lkC4] ≠ ⊤ := by
  have hok : calcCost cosC4 [lkC4] = Except.ok (-1) := by
    have h := calcCost_eq_ok cosC4 [lkC4]
      (by norm_num [costDp, cosC4, lkC4])
      (by norm_num [costJp, cosC4, lkC4])
      (by norm_num [costLRpEff, costLRp, cosC4, lkC4])
      (by norm_num [costDen, costCt, costBw, cosC4, lkC4])
      (by norm_num [costProd, costDp, costJp, costLRpEff, costLRp, cosC4,
        lkC4])
    rw [h]
    norm_num [costDen, costCt, costBw, costProd, costDp, costJp, costLRpEff,
      costLRp, cosC4, lkC4]
  have hcost : pathCost cosC4 [lkC4] = ((-1 : ℚ) : EQt) := by
    unfold pathCost
    rw [hok]
  refine ⟨by norm_num [costDen, costCt, costBw, cosC4, lkC4], hcost, ?_⟩
  rw [hcost]
  exact WithTop.coe_ne_top

/-- Witness for C4: the negative-denominator clause instantiated at the
counterexample inputs. -/
theorem c4_leastcost_cost_spec_witness :
    ∃ q : ℚ, q < 0 ∧ pathCost cosC4 [lkC4] = (q : EQt) :=
  (c4_leastcost_cost_spec ⟨[], []⟩ cosC4 [lkC4]).2.2.1
    (by norm_num [costDen, costCt, costBw, cosC4, lkC4])
    (by norm_num [costDp, cosC4, lkC4])
    (by norm_num [costJp, cosC4, lkC4])
    (by norm_num [costLRpEff, costLRp, cosC4, lkC4])
    (by norm_num [cosC4]) (by norm_num [cosC4]) (by norm_num [cosC4])
    (by norm_num [cosC4])

-- ============================================================
--  Topology service state machine (server/ryu_apps/topology.py)
--  for C5, C6, C7, C10
-- ============================================================

/-- Python-dict lookup on an association list (keys unique). -/
def aget {α β : Type} [DecidableEq α] : List (α × β) → α → Option β
  | [], _ => none
  | e :: es, k => if e.1 = k then some e.2 else aget es k

/-- Python-dict assignment: replace in place, or append a new key at the
end (dicts keep insertion order and have unique keys). -/
def aset {α β : Type} [DecidableEq α] :
    List (α × β) → α → β → List (α × β)
  | [], k, v => [(k, v)]
  | e :: es, k, v => if e.1 = k then (k, v) :: es else e :: aset es k v

/-- Python-dict `pop(k, None)`. -/
def aerase {α β : Type} [DecidableEq α] (l : List (α × β)) (k : α) :
    List (α × β) :=
  l.filter (fun e => !(decide (e.1 = k)))

theorem aget_aset_self {α β : Type} [DecidableEq α] (l : List (α × β))
    (k : α) (v : β) : aget (aset l k v) k = some v := by
  induction l with
  | nil => simp [aget, aset]
  | cons e es ih =>
    by_cases h : e.1 = k
    · simp [aset, h, aget]
    · simp only [aset, if_neg h, aget, if_neg h]
      exact ih

theorem aget_aset_ne {α β : Type} [DecidableEq α] (l : List (α × β))
    (k k' : α) (v : β) (h : k' ≠ k) : aget (aset l k v) k' = aget l k' := by
  have h' : ¬ k = k' := fun hc => h hc.symm
  induction l with
  | nil => simp [aget, aset, h']
  | cons e es ih =>
    by_cases he : e.1 = k
    · have he' : ¬ e.1 = k' := by rw [he]; exact h'
      simp [aset, he, aget, h', he']
    · by_cases he' : e.1 = k'
      · simp [aset, he, aget, he', h]
      · simp only [aset, if_neg he, aget, if_neg he']
        exact ih

theorem aget_aerase_self {α β : Type} [DecidableEq α] (l : List (α × β))
    (k : α) : aget (aerase l k) k = none := by
  induction l with
  | nil => simp [aget, aerase]
  | cons e es ih =>
    by_cases h : e.1 = k
    · have hdrop : aerase (e :: es) k = aerase es k := by
        simp [aerase, List.filter_cons, h]
      rw [hdrop]
      exact ih
    · have hkeep : aerase (e :: es) k = e :: aerase es k := by
        simp [aerase, List.filter_cons, h]
      rw [hkeep]
      simp only [aget, if_neg h]
      exact ih

theorem aget_aerase_ne {α β : Type} [DecidableEq α] (l : List (α × β))
    (k k' : α) (h : k' ≠ k) : aget (aerase l k) k' = aget l k' := by
  induction l with
  | nil => simp [aget, aerase]
  | cons e es ih =>
    by_cases he : e.1 = k
    · have he' : ¬ e.1 = k' := by rw [he]; exact fun hc => h hc.symm
      have hdrop : aerase (e :: es) k = aerase es k := by
        simp [aerase, List.filter_cons, he]
      rw [hdrop, ih]
      simp [aget, he']
    · have hkeep : aerase (e :: es) k = e :: aerase es k := by
        simp [aerase, List.filter_cons, he]
      rw [hkeep]
      by_cases he' : e.1 = k'
      · simp [aget, he']
      · simp only [aget, if_neg he']
        exact ih

theorem aget_none_aerase {α β : Type} [DecidableEq α] (l : List (α × β))
    (k k' : α) (h : aget l k' = none) : aget (aerase l k) k' = none := by
  by_cases hk : k' = k
  · rw [hk]
    exact aget_aerase_self l k
  · rw [aget_aerase_ne l k k' hk]
    exact h

/-- Port reference: Python call sites pass either the interface name or
its number as `port_ref`; `_src_port_to_dst` keys both forms. -/
inductive PKey where
  | kName (s : String)
  | kNum (n : Option Nat)
deriving DecidableEq, Repr

/-- Interface specs (model.py `InterfaceSpecs`), exact-rational valued;
packet/byte counters are integers. -/
structure IfSpecsQ where
  capacity : ℚ
  bandwidthUp : ℚ
  bandwidthDown : ℚ
  txPackets : Int
  rxPackets : Int
  txBytes : Int
  rxBytes : Int
  timestamp : ℚ
deriving DecidableEq, Repr

/-- model.py `Interface`. -/
structure IfaceQ where
  name : String
  num : Option Nat
  mac : Option String
  ipv4 : Option String
  specs : IfSpecsQ
deriving DecidableEq, Repr

/-- model.py `Node` as stored by the Topology app.  `typ` is the NodeType
value; interfaces is the name-keyed dict. -/
structure NodeObjQ where
  id : String
  state : Bool
  typ : String
  label : Option String
  interfaces : List (String × IfaceQ)
  specs : NodeSpecsQ
  threshold : ℚ
deriving DecidableEq, Repr

/-- model.py `LinkSpecs`: delay and jitter default to `inf`. -/
structure LkSpecsQ where
  capacity : ℚ
  bandwidth : ℚ
  delay : EQt
  jitter : EQt
  lossRate : ℚ
  timestamp : ℚ
deriving DecidableEq, Repr

/-- model.py `Link`.  In Python the link holds the two Interface objects
themselves; the objects are owned by their Nodes, so the link is embedded
as the two (node id, port name) handles, resolved through the node store
on every read (single shared mutable store). -/
structure LinkTQ where
  srcRef : String × String
  dstRef : String × String
  state : Bool
  specs : LkSpecsQ
deriving DecidableEq, Repr

/-- The MAC reverse-index record (`Topology._interfaces[mac]`); the
stitcher-filled dpid/port fields are not modelled (no claim reads them). -/
structure IfaceInfo where
  nodeId : String
  name : String
  ipv4 : Option String
deriving DecidableEq, Repr

/-- The Topology app's state: the DiGraph (node store + edge store) and
the reverse indices. -/
structure TopoState where
  nodes : List (String × NodeObjQ)
  edges : List ((String × String) × LinkTQ)
  srcPortToDst : List (String × List (PKey × String))
  numToName : List (String × List (Option Nat × String))
  interfacesIdx : List (String × IfaceInfo)
deriving DecidableEq, Repr

def emptyTopo : TopoState := ⟨[], [], [], [], []⟩

/-- `Topology.get_node`. -/
def getNode (s : TopoState) (id : String) : Option NodeObjQ :=
  aget s.nodes id

/-- Default `NodeSpecs()` at creation time. -/
def nodeSpecs0 (now : ℚ) : NodeSpecsQ :=
  ⟨0, 0, 0, 0, 0, 0, now⟩

/-- Default `InterfaceSpecs()` at creation time. -/
def ifSpecs0 (now : ℚ) : IfSpecsQ :=
  ⟨0, 0, 0, 0, 0, 0, 0, now⟩

/-- Default `LinkSpecs()` at creation time: delay/jitter `inf`, loss 1. -/
def lkSpecs0 (now : ℚ) : LkSpecsQ :=
  ⟨0, 0, ⊤, ⊤, 1, now⟩

/-- `Topology.add_node` (topology.py lines 131-136): networkx `add_node`
creates or replaces the `node` attribute, keeping any incident edges. -/
def addNode (now : ℚ) (s : TopoState) (id : String) (state : Bool)
    (typ : String) (label : Option String) : TopoState :=
  { s with nodes := (aset s.nodes id
      ⟨id, state, typ, label, [], nodeSpecs0 now, 1⟩) }

/-- `Topology.get_interface` (topology.py lines 157-167).  A name ref is
never a `_num_to_name` key (names are strings, keys are numbers), so it
falls through as the dict-get default; a number ref resolves through
`_num_to_name` and a number is never an `interfaces` key. -/
def getInterface (s : TopoState) (nodeId : String) (ref : PKey) :
    Option IfaceQ :=
  (getNode s nodeId).bind (fun node =>
    match ref with
    | PKey.kName n => aget node.interfaces n
    | PKey.kNum num =>
      (aget ((aget s.numToName nodeId).getD []) num).bind
        (fun nm => aget node.interfaces nm))

/-- `Topology.add_interface` (topology.py lines 169-190); the spawned
`_set_main_interface` task only fills the dpid/port fields of the same
reverse-index record, which are not modelled. -/
def addInterface (now : ℚ) (s : TopoState) (nodeId : String) (name : String)
    (num : Option Nat) (mac ipv4 : Option String) : TopoState × Bool :=
  match getNode s nodeId with
  | none => (s, false)
  | some node =>
    let node' := { node with
      interfaces := aset node.interfaces name ⟨name, num, mac, ipv4, ifSpecs0 now⟩ }
    let s1 := { s with
      nodes := aset s.nodes nodeId node'
      numToName := aset s.numToName nodeId
        (aset ((aget s.numToName nodeId).getD []) num name) }
    match mac with
    | some m =>
      ({ s1 with interfacesIdx := aset s1.interfacesIdx m ⟨nodeId, name, ipv4⟩ },
        true)
    | none => (s1, true)

/-- `Topology.get_link`. -/
def getLink (s : TopoState) (srcId dstId : String) : Option LinkTQ :=
  aget s.edges (srcId, dstId)

/-- `Topology.get_dst_at_port` (topology.py lines 267-276). -/
def getDstAtPort (s : TopoState) (srcId : String) (ref : PKey) :
    Option NodeObjQ :=
  (aget ((aget s.srcPortToDst srcId).getD []) ref).bind (getNode s)

/-- `Topology.get_link_at_port` (topology.py lines 303-313). -/
def getLinkAtPort (s : TopoState) (srcId : String) (ref : PKey) :
    Option LinkTQ :=
  (getDstAtPort s srcId ref).bind (fun dst => getLink s srcId dst.id)

/-- `Topology.get_by_mac(mac, 'node_id')` (topology.py lines 278-285). -/
def getByMacNodeId (s : TopoState) (mac : String) : Option String :=
  (aget s.interfacesIdx mac).map (fun i => i.nodeId)

/-- `Topology.delete_link` (topology.py lines 237-249): removes the edge
AND pops the whole `_src_port_to_dst[src_id]` map. -/
def deleteLink (s : TopoState) (srcId dstId : String) : TopoState :=
  { s with edges := aerase s.edges (srcId, dstId)
           srcPortToDst := aerase s.srcPortToDst srcId }

/-- `Topology.add_link` (topology.py lines 216-235). -/
def addLink (now : ℚ) (s : TopoState) (srcId dstId : String)
    (srcPortName dstPortName : String) (state : Bool) : TopoState × Bool :=
  match getInterface s srcId (PKey.kName srcPortName) with
  | none => (s, false)
  | some srcPort =>
    match getInterface s dstId (PKey.kName dstPortName) with
    | none => (s, false)
    | some dstPort =>
      let link : LinkTQ :=
        ⟨(srcId, srcPort.name), (dstId, dstPort.name), state, lkSpecs0 now⟩
      let m0 := (aget s.srcPortToDst srcId).getD []
      let m1 := aset m0 (PKey.kName srcPortName) dstId
      let m2 := aset m1 (PKey.kNum srcPort.num) dstId
      ({ s with edges := aset s.edges (srcId, dstId) link
                srcPortToDst := aset s.srcPortToDst srcId m2 }, true)

/-- `Topology.delete_interface` (topology.py lines 192-205): pops the
interface, then deletes the links at that port in both directions.  It
does NOT touch the MAC reverse index. -/
def deleteInterface (s : TopoState) (nodeId : String) (name : String) :
    TopoState :=
  match getNode s nodeId with
  | none => s
  | some node =>
    let s1 := { s with nodes := (aset s.nodes nodeId
      { node with interfaces := aerase node.interfaces name }) }
    match getDstAtPort s1 nodeId (PKey.kName name) with
    | none => s1
    | some dst => deleteLink (deleteLink s1 nodeId dst.id) dst.id nodeId

/-- `Topology.delete_node` (topology.py lines 138-155): pops each
interface's MAC from the reverse index, removes the node with its incident
edges (networkx `remove_node`), and pops `_src_port_to_dst[id]`. -/
def deleteNode (s : TopoState) (id : String) : TopoState :=
  let s1 :=
    match getNode s id with
    | some node =>
      { s with interfacesIdx := (node.interfaces.foldl
          (fun (idx : List (String × IfaceInfo)) (e : String × IfaceQ) =>
            match e.2.mac with
            | some m => aerase idx m
            | none => idx) s.interfacesIdx) }
    | none => s
  { s1 with
    nodes := aerase s1.nodes id
    edges := s1.edges.filter
      (fun e => !(decide (e.1.1 = id) || decide (e.1.2 = id)))
    srcPortToDst := aerase s1.srcPortToDst id }

/-- C10: deleting one directed link pops the entire `_src_port_to_dst[src]`
map, so every other port of `src` loses its destination and link lookups
even though its edge is still in the graph, until `add_link` re-records
it. -/
theorem c10_delete_link_wipes_src_port_map (s : TopoState) (src dst : String)
    (p : PKey) (dst2 : String)
    (hmap : aget ((aget s.srcPortToDst src).getD []) p = some dst2)
    (hne : dst2 ≠ dst)
    (hedge : getLink s src dst2 ≠ none) :
    getDstAtPort (deleteLink s src dst) src p = none
    ∧ getLinkAtPort (deleteLink s src dst) src p = none
    ∧ getLink (deleteLink s src dst) src dst2 = getLink s src dst2
    ∧ (∀ now st srcPn dstPn s2,
        addLink now (deleteLink s src dst) src dst2 srcPn dstPn st
          = (s2, true)
        → aget ((aget s2.srcPortToDst src).getD []) (PKey.kName srcPn)
            = some dst2) := by
  have hwipe : getDstAtPort (deleteLink s src dst) src p = none := by
    simp [getDstAtPort, deleteLink, aget_aerase_self, aget]
  refine ⟨hwipe, ?_, ?_, ?_⟩
  · simp [getLinkAtPort, hwipe]
  · have : ((src, dst2) : String × String) ≠ (src, dst) := by
      intro hc
      exact hne (congrArg Prod.snd hc)
    simp [getLink, deleteLink, aget_aerase_ne _ _ _ this]
  · intro now st srcPn dstPn s2 h
    cases hi1 : getInterface (deleteLink s src dst) src (PKey.kName srcPn) with
    | none =>
      rw [addLink, hi1] at h
      exact absurd (congrArg Prod.snd h) (by simp)
    | some sp =>
      cases hi2 : getInterface (deleteLink s src dst) dst2
          (PKey.kName dstPn) with
      | none =>
        rw [addLink, hi1, hi2] at h
        exact absurd (congrArg Prod.snd h) (by simp)
      | some dp =>
        rw [addLink, hi1, hi2] at h
        have hs2 := congrArg Prod.fst h
        simp only at hs2
        rw [← hs2]
        simp only [aget_aset_self, Option.getD_some]
        rw [aget_aset_ne _ _ _ _ (by intro hc; cases hc), aget_aset_self]

/-- A successful dict lookup exhibits a list member. -/
theorem aget_mem {α β : Type} [DecidableEq α] :
    ∀ (l : List (α × β)) (k : α) (v : β), aget l k = some v → (k, v) ∈ l
  | [], _, _, h => by simp [aget] at h
  | e :: es, k, v, h => by
    by_cases he : e.1 = k
    · simp only [aget, if_pos he] at h
      injection h with h2
      subst h2
      subst he
      exact List.mem_cons.mpr (Or.inl rfl)
    · simp only [aget, if_neg he] at h
      exact List.mem_cons.mpr (Or.inr (aget_mem es k v h))

/-- C5 (amended): `add_interface` with a MAC registers the owning node id
in the MAC reverse index; `delete_node` removes the MAC entries of the
node's interfaces; but `delete_interface` does NOT touch the reverse
index, so `get_by_mac` still returns the former owner afterwards. -/
theorem c5_mac_reverse_index (now : ℚ) (s : TopoState) :
    (∀ nodeId name num mac ipv4 s2,
        addInterface now s nodeId name num (some mac) ipv4 = (s2, true)
        → getByMacNodeId s2 mac = some nodeId)
    ∧ (∀ id node name iface m,
        getNode s id = some node
        → aget node.interfaces name = some iface
        → iface.mac = some m
        → getByMacNodeId (deleteNode s id) m = none)
    ∧ (∀ nodeId name m,
        getByMacNodeId (deleteInterface s nodeId name) m
          = getByMacNodeId s m) := by
  refine ⟨?_, ?_, ?_⟩
  · intro nodeId name num mac ipv4 s2 h
    cases hn : getNode s nodeId with
    | none =>
      rw [addInterface, hn] at h
      exact absurd (congrArg Prod.snd h) (by simp)
    | some node =>
      rw [addInterface, hn] at h
      have hs2 := congrArg Prod.fst h
      simp only at hs2
      rw [← hs2]
      simp [getByMacNodeId, aget_aset_self]
  · intro id node name iface m hn hif hm
    have hmem : ∃ e ∈ node.interfaces, e.2.mac = some m :=
      ⟨(name, iface), aget_mem node.interfaces name iface hif, hm⟩
    have hfold : ∀ (ifaces : List (String × IfaceQ))
        (idx : List (String × IfaceInfo)),
        (∃ e ∈ ifaces, e.2.mac = some m) ∨ aget idx m = none
        → aget (ifaces.foldl
            (fun (idx : List (String × IfaceInfo)) (e : String × IfaceQ) =>
              match e.2.mac with
              | some mm => aerase idx mm
              | none => idx) idx) m = none := by
      intro ifaces
      induction ifaces with
      | nil =>
        intro idx h
        rcases h with ⟨e, he, -⟩ | h
        · simp at he
        · simpa using h
      | cons e es ih =>
        intro idx h
        rw [List.foldl_cons]
        rcases h with ⟨f, hf, hfm⟩ | h
        · rcases List.mem_cons.mp hf with rfl | hf
          · rw [hfm]
            exact ih _ (Or.inr (aget_aerase_self idx m))
          · exact ih _ (Or.inl ⟨f, hf, hfm⟩)
        · cases hme : e.2.mac with
          | none => exact ih _ (Or.inr h)
          | some mm => exact ih _ (Or.inr (aget_none_aerase idx mm m h))
    rw [deleteNode, hn]
    simp only [getByMacNodeId]
    rw [hfold node.interfaces s.interfacesIdx (Or.inl hmem)]
    rfl
  · intro nodeId name m
    have hidx : (deleteInterface s nodeId name).interfacesIdx
        = s.interfacesIdx := by
      rw [deleteInterface]
      cases hn : getNode s nodeId with
      | none => rfl
      | some node =>
        simp only
        cases getDstAtPort
            { s with nodes := (aset s.nodes nodeId
              { node with interfaces := aerase node.interfaces name }) }
            nodeId (PKey.kName name) with
        | none => rfl
        | some dst => rfl
    rw [getByMacNodeId, getByMacNodeId, hidx]

/-- The C5/C6/C7 base state: node `n1` with interface `eth0` whose MAC is
`m1`. -/
def c5Base : TopoState :=
  (addInterface 0 (addNode 0 emptyTopo "n1" true "SERVER" none)
    "n1" "eth0" none (some "m1") none).1

/-- C5 counterexample: after `delete_interface`, the interface is gone from
its node but `get_by_mac` STILL returns the former owning node id — the
claim says the MAC entry is removed and `get_by_mac` returns None. -/
theorem c5_delete_interface_keeps_mac_cex :
    (getNode (deleteInterface c5Base "n1" "eth0") "n1").map
        (fun n => aget n.interfaces "eth0") = some none
    ∧ getByMacNodeId (deleteInterface c5Base "n1" "eth0") "m1"
        = some "n1" := by
  constructor
  · rfl
  · rfl

/-- Witness for C5: the add-interface and delete-node clauses instantiated
on the concrete base state. -/
theorem c5_mac_reverse_index_witness :
    getByMacNodeId c5Base "m1" = some "n1"
    ∧ getByMacNodeId (deleteNode c5Base "n1") "m1" = none
    ∧ getByMacNodeId (deleteInterface c5Base "n1" "eth0") "m1"
        = getByMacNodeId c5Base "m1" := by
  refine ⟨?_, ?_, ?_⟩
  · exact (c5_mac_reverse_index 0 (addNode 0 emptyTopo "n1" true "SERVER"
      none)).1 "n1" "eth0" none "m1" none c5Base rfl
  · exact (c5_mac_reverse_index 0 c5Base).2.1 "n1"
      ⟨"n1", true, "SERVER", none,
        [("eth0", ⟨"eth0", none, some "m1", none, ifSpecs0 0⟩)],
        nodeSpecs0 0, 1⟩
      "eth0" ⟨"eth0", none, some "m1", none, ifSpecs0 0⟩ "m1" rfl rfl rfl
  · exact (c5_mac_reverse_index 0 c5Base).2.2 "n1" "eth0" "m1"

/-- A topology with two links out of `n1`: port p1 to `n2`, port p2 to
`n3`. -/
def c10Base : TopoState :=
  let s1 := addNode 0 emptyTopo "n1" true "SWITCH" none
  let s2 := addNode 0 s1 "n2" true "SWITCH" none
  let s3 := addNode 0 s2 "n3" true "SWITCH" none
  let s4 := (addInterface 0 s3 "n1" "p1" (some 1) none none).1
  let s5 := (addInterface 0 s4 "n1" "p2" (some 2) none none).1
  let s6 := (addInterface 0 s5 "n2" "q2" (some 1) none none).1
  let s7 := (addInterface 0 s6 "n3" "q3" (some 1) none none).1
  let s8 := (addLink 0 s7 "n1" "n2" "p1" "q2" false).1
  (addLink 0 s8 "n1" "n3" "p2" "q3" false).1

/-- Witness for C10: deleting link n1→n2 also blanks the port map entry of
p2, whose link n1→n3 is still an edge. -/
theorem c10_delete_link_wipes_src_port_map_witness :
    getDstAtPort (deleteLink c10Base "n1" "n2") "n1" (PKey.kName "p2") = none
    ∧ getLinkAtPort (deleteLink c10Base "n1" "n2") "n1" (PKey.kName "p2")
        = none
    ∧ getLink (deleteLink c10Base "n1" "n2") "n1" "n3"
        = getLink c10Base "n1" "n3" := by
  obtain ⟨h1, h2, h3, -⟩ :=
    c10_delete_link_wipes_src_port_map c10Base "n1" "n2" (PKey.kName "p2")
      "n3" rfl (by decide)
      (by
        rw [show getLink c10Base "n1" "n3"
            = some ⟨("n1", "p2"), ("n3", "q3"), false, lkSpecs0 0⟩ from rfl]
        exact Option.some_ne_none _)
  exact ⟨h1, h2, h3⟩

-- ============================================================
--  TopologyState (server/ryu_apps/topology_state.py) for C6, C7
-- ============================================================

/-- Monitoring config defaults (common.py): MONITOR_PERIOD = 1 s. -/
def MONITOR_PERIOD : ℚ := 1

/-- Monitoring config defaults (common.py): MONITOR_SAMPLES = 2. -/
def MONITOR_SAMPLES : Nat := 2

/-- One saved port-stats sample: the (tx_packets, rx_packets, tx_bytes,
rx_bytes) arguments exactly as passed, None included. -/
abbrev StatsSample := Option Int × Option Int × Option Int × Option Int

/-- The TopologyState app state: the shared Topology plus the app's
suppression windows and stats history. -/
structure TSState where
  topo : TopoState
  blockAppUpdate : List ((String × String) × ℚ)
  portStats : List ((String × String) × List StatsSample)
  iperf3Update : List ((String × String) × ℚ)
deriving Repr

/-- `TopologyState._save_stats` (lines 68-72). -/
def saveStats (stats : List ((String × String) × List StatsSample))
    (key : String × String) (value : StatsSample) :
    List ((String × String) × List StatsSample) :=
  let cur := (aget stats key).getD [] ++ [value]
  aset stats key (if MONITOR_SAMPLES < cur.length then cur.tail else cur)

/-- `Interface.set_capacity` (model.py): write the field and stamp the
spec timestamp with the wall time. -/
def ifSetCapacity (now : ℚ) (ifc : IfaceQ) (v : ℚ) : IfaceQ :=
  { ifc with specs := { ifc.specs with capacity := v, timestamp := now } }

def ifSetBandwidthUp (now : ℚ) (ifc : IfaceQ) (v : ℚ) : IfaceQ :=
  { ifc with specs := { ifc.specs with bandwidthUp := v, timestamp := now } }

def ifSetBandwidthDown (now : ℚ) (ifc : IfaceQ) (v : ℚ) : IfaceQ :=
  { ifc with specs := { ifc.specs with bandwidthDown := v, timestamp := now } }

def ifSetTxPackets (now : ℚ) (ifc : IfaceQ) (v : Int) : IfaceQ :=
  { ifc with specs := { ifc.specs with txPackets := v, timestamp := now } }

def ifSetRxPackets (now : ℚ) (ifc : IfaceQ) (v : Int) : IfaceQ :=
  { ifc with specs := { ifc.specs with rxPackets := v, timestamp := now } }

def ifSetTxBytes (now : ℚ) (ifc : IfaceQ) (v : Int) : IfaceQ :=
  { ifc with specs := { ifc.specs with txBytes := v, timestamp := now } }

def ifSetRxBytes (now : ℚ) (ifc : IfaceQ) (v : Int) : IfaceQ :=
  { ifc with specs := { ifc.specs with rxBytes := v, timestamp := now } }

/-- `Interface.set_timestamp(t)`: Python `t if t else time()`. -/
def ifSetTimestamp (now : ℚ) (ifc : IfaceQ) (t : ℚ) : IfaceQ :=
  { ifc with specs := { ifc.specs with
      timestamp := if t = 0 then now else t } }

def lkSetCapacity (now : ℚ) (l : LinkTQ) (v : ℚ) : LinkTQ :=
  { l with specs := { l.specs with capacity := v, timestamp := now } }

def lkSetBandwidth (now : ℚ) (l : LinkTQ) (v : ℚ) : LinkTQ :=
  { l with specs := { l.specs with bandwidth := v, timestamp := now } }

def lkSetLossRate (now : ℚ) (l : LinkTQ) (v : ℚ) : LinkTQ :=
  { l with specs := { l.specs with lossRate := v, timestamp := now } }

/-- `Link.set_timestamp(t)`: Python `t if t else time()`. -/
def lkSetTimestamp (now : ℚ) (l : LinkTQ) (t : ℚ) : LinkTQ :=
  { l with specs := { l.specs with timestamp := if t = 0 then now else t } }

/-- Apply a mutation to the shared Interface object owned by a node
(Python mutates the object in place; we write back through the store). -/
def setIface (s : TopoState) (nodeId name : String) (f : IfaceQ → IfaceQ) :
    TopoState :=
  match getNode s nodeId with
  | none => s
  | some node =>
    match aget node.interfaces name with
    | none => s
    | some ifc =>
      { s with nodes := (aset s.nodes nodeId
          { node with interfaces := aset node.interfaces name (f ifc) }) }

/-- Apply a mutation to the shared Link object of an edge. -/
def setLinkF (s : TopoState) (srcId dstId : String) (f : LinkTQ → LinkTQ) :
    TopoState :=
  match getLink s srcId dstId with
  | none => s
  | some l => { s with edges := aset s.edges (srcId, dstId) (f l) }

/-- Python `None` arithmetic raises TypeError. -/
def optInt : Option Int → Except Unit Int
  | some v => Except.ok v
  | none => Except.error ()

/-- The byte-counter speed derivation of the iperf branch
(topology_state.py lines 206-214): `up_pre`/`down_pre` are 0 unless two
samples exist; a `None` counter makes the Python subtraction raise
TypeError (no try here), hence the `Except`. -/
def iperfSpeeds (tmp : List StatsSample) : Except Unit (ℚ × ℚ) := do
  let pre :=
    if 1 < tmp.length then tmp.getD (tmp.length - 2) (none, none, none, none)
    else (some 0, some 0, some 0, some 0)
  let upPre ← optInt pre.2.2.1
  let downPre ← optInt pre.2.2.2
  let last := tmp.getLastD (none, none, none, none)
  let lastUp ← optInt last.2.2.1
  let lastDown ← optInt last.2.2.2
  Except.ok ((((lastUp - upPre : Int) : ℚ) / MONITOR_PERIOD) * 8,
    (((lastDown - downPre : Int) : ℚ) / MONITOR_PERIOD) * 8)

/-- The `_recv_bps` (iperf) branch of `_update_link_specs_at_port`
(topology_state.py lines 202-218): mark the iperf window, derive the dst
port's capacity from the measured rate and its free bandwidths from the
byte counters. -/
def ulspIperf (now : ℚ) (ts : TSState) (dstRefNode dstRefName : String)
    (dstKey : String × String) (recvBps : Option ℚ) :
    Except Unit TSState :=
  match recvBps with
  | none => Except.ok ts
  | some bps =>
    let dstCap := bps / 1000000
    let ts1 : TSState :=
      { ts with iperf3Update := aset ts.iperf3Update dstKey now
                topo := setIface ts.topo dstRefNode dstRefName
                  (fun ifc => ifSetCapacity now ifc dstCap) }
    match aget ts1.portStats dstKey with
    | none => Except.ok ts1
    | some tmp =>
      match iperfSpeeds tmp with
      | Except.error e => Except.error e
      | Except.ok speeds =>
        Except.ok { ts1 with topo :=
          (setIface
            (setIface ts1.topo dstRefNode dstRefName
              (fun ifc => ifSetBandwidthUp now ifc
                (max 0 (dstCap - speeds.1 * 8 / 1000000))))
            dstRefNode dstRefName
            (fun ifc => ifSetBandwidthDown now ifc
              (max 0 (dstCap - speeds.2 * 8 / 1000000)))) }

/-- The writes of `_update_link_specs_at_port` after the two port objects
have been read (topology_state.py lines 220-239): link capacity :=
min(src cap, dst cap); link bandwidth := min(src bw_up, dst bw_down);
loss rate from the counters under its own try/except (any failure gives
loss 1); then the link timestamp. -/
def ulspFinish (now : ℚ) (ts : TSState) (srcId dstId : String)
    (srcP dstP : IfaceQ) (txPackets : Option Int) (timestamp : ℚ)
    (key dstKey : String × String) : TSState × Bool :=
  let topo := setLinkF ts.topo srcId dstId
    (fun l => lkSetCapacity now l (min srcP.specs.capacity dstP.specs.capacity))
  let topo := setLinkF topo srcId dstId
    (fun l => lkSetBandwidth now l
      (min srcP.specs.bandwidthUp dstP.specs.bandwidthDown))
  let topo :=
    match txPackets with
    | none => topo
    | some txv =>
      let lossOpt : Option ℚ := do
        let myStats ← aget ts.portStats key
        let f0 ← myStats.head?
        let ptx ← f0.1
        let dstStats ← aget ts.portStats dstKey
        let g0 ← dstStats.head?
        let prx ← g0.2.1
        let reTx := txv - ptx
        let reRx := dstP.specs.rxPackets - prx
        if reTx = 0 then none
        else some (max 0 (((reTx - reRx : Int) : ℚ) / ((reTx : Int) : ℚ)))
      setLinkF topo srcId dstId
        (fun l => lkSetLossRate now l (lossOpt.getD 1))
  let topo := setLinkF topo srcId dstId
    (fun l => lkSetTimestamp now l timestamp)
  ({ ts with topo := topo }, true)

/-- Embedding of `TopologyState._update_link_specs_at_port`
(topology_state.py lines 175-240).  The Python link holds its two port
objects; here they are re-read through the store right where the source
reads `link.src_port`/`link.dst_port`; a dangling handle (impossible for
links built by `add_link` while their ports exist) is an error. -/
def updateLinkSpecsAtPort (now : ℚ) (ts : TSState) (srcId portName : String)
    (txPackets rxPackets txBytes rxBytes : Option Int) (timestamp : ℚ)
    (recvBps : Option ℚ) : Except Unit (TSState × Bool) :=
  let key := (srcId, portName)
  let ts1 : TSState := { ts with portStats := (saveStats ts.portStats key
    (txPackets, rxPackets, txBytes, rxBytes)) }
  match getDstAtPort ts1.topo srcId (PKey.kName portName) with
  | none => Except.ok (ts1, false)
  | some dstNode =>
    match getLink ts1.topo srcId dstNode.id with
    | none => Except.ok (ts1, false)
    | some link => do
      let dstKey := (dstNode.id, link.dstRef.2)
      let ts2 ← ulspIperf now ts1 link.dstRef.1 link.dstRef.2 dstKey recvBps
      match getInterface ts2.topo link.srcRef.1 (PKey.kName link.srcRef.2),
          getInterface ts2.topo link.dstRef.1 (PKey.kName link.dstRef.2) with
      | some srcP, some dstP =>
        Except.ok (ulspFinish now ts2 srcId dstNode.id srcP dstP txPackets
          timestamp key dstKey)
      | _, _ => Except.error ()

/-- Embedding of `TopologyState.update_node_specs` (topology_state.py
lines 74-103): `node.set_timestamp(timestamp)` stores the given timestamp
(wall time when 0); then every given field is written, each write
re-stamping the spec timestamp with the wall time.  No comparison against
the stored timestamp is ever made. -/
def updateNodeSpecs (now : ℚ) (s : TopoState) (id : String)
    (cpuCount cpuFree memoryTotal memoryFree diskTotal diskFree : Option ℚ)
    (timestamp : ℚ) : TopoState × Bool :=
  match getNode s id with
  | none => (s, false)
  | some node =>
    let sp := { node.specs with
      timestamp := if timestamp = 0 then now else timestamp }
    let sp :=
      match cpuCount with
      | some v => { sp with cpuCount := v, timestamp := now }
      | none => sp
    let sp :=
      match cpuFree with
      | some v => { sp with cpuFree := v, timestamp := now }
      | none => sp
    let sp :=
      match memoryTotal with
      | some v => { sp with memoryTotal := v, timestamp := now }
      | none => sp
    let sp :=
      match memoryFree with
      | some v => { sp with memoryFree := v, timestamp := now }
      | none => sp
    let sp :=
      match diskTotal with
      | some v => { sp with diskTotal := v, timestamp := now }
      | none => sp
    let sp :=
      match diskFree with
      | some v => { sp with diskFree := v, timestamp := now }
      | none => sp
    ({ s with nodes := aset s.nodes id { node with specs := sp } }, true)

/-- Embedding of `TopologyState.update_interface_specs` (topology_state.py
lines 105-143): opens the app-update suppression window, stamps the
interface, writes capacity/bandwidths only outside an iperf window, writes
the counters, then runs `_update_link_specs_at_port`. -/
def updateInterfaceSpecs (now : ℚ) (ts : TSState) (nodeId name : String)
    (capacity bandwidthUp bandwidthDown : Option ℚ)
    (txPackets rxPackets txBytes rxBytes : Option Int) (timestamp : ℚ)
    (recvBps : Option ℚ) : Except Unit TSState :=
  match getInterface ts.topo nodeId (PKey.kName name) with
  | none => Except.ok ts
  | some _ =>
    let key := (nodeId, name)
    let ts1 : TSState :=
      { ts with blockAppUpdate := aset ts.blockAppUpdate key now }
    let topo := setIface ts1.topo nodeId name
      (fun ifc => ifSetTimestamp now ifc timestamp)
    let topo :=
      if (aget ts1.iperf3Update key).isNone then
        let topo :=
          match capacity with
          | some v => setIface topo nodeId name
              (fun ifc => ifSetCapacity now ifc v)
          | none => topo
        let topo :=
          match bandwidthUp with
          | some v => setIface topo nodeId name
              (fun ifc => ifSetBandwidthUp now ifc v)
          | none => topo
        match bandwidthDown with
        | some v => setIface topo nodeId name
            (fun ifc => ifSetBandwidthDown now ifc v)
        | none => topo
      else topo
    let topo :=
      match txPackets with
      | some v => setIface topo nodeId name
          (fun ifc => ifSetTxPackets now ifc v)
      | none => topo
    let topo :=
      match rxPackets with
      | some v => setIface topo nodeId name
          (fun ifc => ifSetRxPackets now ifc v)
      | none => topo
    let topo :=
      match txBytes with
      | some v => setIface topo nodeId name
          (fun ifc => ifSetTxBytes now ifc v)
      | none => topo
    let topo :=
      match rxBytes with
      | some v => setIface topo nodeId name
          (fun ifc => ifSetRxBytes now ifc v)
      | none => topo
    do
      let r ← updateLinkSpecsAtPort now { ts1 with topo := topo } nodeId name
        txPackets rxPackets txBytes rxBytes timestamp recvBps
      Except.ok r.1

/-- C7 (amended): `update_node_specs` applies every given field
unconditionally, with no comparison between the given timestamp and the
stored one; the stored timestamp becomes the current wall time whenever at
least one field is given (each setter re-stamps it), and the given
timestamp (wall time when 0) otherwise.  Replaying an update whose
timestamp is older than the stored one therefore overwrites the specs, and
a fields-free replay moves the stored timestamp backward. -/
theorem c7_update_node_specs_spec (now : ℚ) (s : TopoState) (id : String)
    (cpuCount cpuFree memoryTotal memoryFree diskTotal diskFree : Option ℚ)
    (timestamp : ℚ) (node : NodeObjQ) (h : getNode s id = some node) :
    ∃ node',
      updateNodeSpecs now s id cpuCount cpuFree memoryTotal memoryFree
          diskTotal diskFree timestamp
        = ({ s with nodes := aset s.nodes id node' }, true)
      ∧ node'.specs.cpuCount = cpuCount.getD node.specs.cpuCount
      ∧ node'.specs.cpuFree = cpuFree.getD node.specs.cpuFree
      ∧ node'.specs.memoryTotal = memoryTotal.getD node.specs.memoryTotal
      ∧ node'.specs.memoryFree = memoryFree.getD node.specs.memoryFree
      ∧ node'.specs.diskTotal = diskTotal.getD node.specs.diskTotal
      ∧ node'.specs.diskFree = diskFree.getD node.specs.diskFree
      ∧ node'.specs.timestamp
          = (if cpuCount.isSome ∨ cpuFree.isSome ∨ memoryTotal.isSome
                ∨ memoryFree.isSome ∨ diskTotal.isSome ∨ diskFree.isSome
             then now
             else if timestamp = 0 then now else timestamp) := by
  unfold updateNodeSpecs
  rw [h]
  cases cpuCount <;> cases cpuFree <;> cases memoryTotal <;>
    cases memoryFree <;> cases diskTotal <;> cases diskFree <;>
    exact ⟨_, rfl, by simp, by simp, by simp, by simp, by simp, by simp,
      by simp⟩

/-- A node whose spec timestamp was set to 10 by an explicit,
fields-free `update_node_specs` at wall time 1. -/
def c7S1 : TopoState :=
  (updateNodeSpecs 1 (addNode 1 emptyTopo "n1" true "SERVER" none) "n1"
    none none none none none none 10).1

/-- C7 counterexample: replaying `update_node_specs` with the earlier
timestamp 5 (wall time 2) moves the stored timestamp backward from 10 to
5 — no monotonicity guard exists. -/
theorem c7_timestamp_regression_cex :
    (getNode c7S1 "n1").map (fun n => n.specs.timestamp) = some 10
    ∧ (getNode (updateNodeSpecs 2 c7S1 "n1" none none none none none none
        5).1 "n1").map (fun n => n.specs.timestamp) = some 5
    ∧ (5 : ℚ) < 10 := by
  refine ⟨?_, ?_, by norm_num⟩
  · norm_num [c7S1, updateNodeSpecs, addNode, emptyTopo, getNode, aget, aset,
      nodeSpecs0]
  · norm_num [c7S1, updateNodeSpecs, addNode, emptyTopo, getNode, aget, aset,
      nodeSpecs0]

/-- Witness for C7 at the concrete replay. -/
theorem c7_update_node_specs_spec_witness :
    ∃ node',
      updateNodeSpecs 2 c7S1 "n1" none none none none none none 5
        = ({ c7S1 with nodes := aset c7S1.nodes "n1" node' }, true)
      ∧ node'.specs.timestamp = 5 := by
  obtain ⟨node', h1, -, -, -, -, -, -, h8⟩ :=
    c7_update_node_specs_spec 2 c7S1 "n1" none none none none none none 5
      ⟨"n1", true, "SERVER", none, [], ⟨0, 0, 0, 0, 0, 0, 10⟩, 1⟩
      (by norm_num [c7S1, updateNodeSpecs, addNode, emptyTopo, getNode,
        aget, aset, nodeSpecs0])
  refine ⟨node', h1, ?_⟩
  rw [h8]
  norm_num

theorem setIface_edges (s : TopoState) (a nm : String) (f : IfaceQ → IfaceQ) :
    (setIface s a nm f).edges = s.edges := by
  unfold setIface
  split
  · rfl
  · split
    · rfl
    · rfl

theorem setIface_srcPortToDst (s : TopoState) (a nm : String)
    (f : IfaceQ → IfaceQ) :
    (setIface s a nm f).srcPortToDst = s.srcPortToDst := by
  unfold setIface
  split
  · rfl
  · split
    · rfl
    · rfl

theorem setIface_numToName (s : TopoState) (a nm : String)
    (f : IfaceQ → IfaceQ) :
    (setIface s a nm f).numToName = s.numToName := by
  unfold setIface
  split
  · rfl
  · split
    · rfl
    · rfl

theorem setLinkF_nodes (s : TopoState) (a b : String) (f : LinkTQ → LinkTQ) :
    (setLinkF s a b f).nodes = s.nodes := by
  unfold setLinkF
  split
  · rfl
  · rfl

theorem setLinkF_srcPortToDst (s : TopoState) (a b : String)
    (f : LinkTQ → LinkTQ) :
    (setLinkF s a b f).srcPortToDst = s.srcPortToDst := by
  unfold setLinkF
  split
  · rfl
  · rfl

theorem setLinkF_numToName (s : TopoState) (a b : String)
    (f : LinkTQ → LinkTQ) :
    (setLinkF s a b f).numToName = s.numToName := by
  unfold setLinkF
  split
  · rfl
  · rfl

theorem getLink_setLinkF_self (s : TopoState) (a b : String)
    (f : LinkTQ → LinkTQ) :
    getLink (setLinkF s a b f) a b = (getLink s a b).map f := by
  unfold setLinkF
  cases h : getLink s a b with
  | none => simp [h]
  | some l =>
    simp only [Option.map_some]
    unfold getLink at *
    simp [aget_aset_self]

/-- `getLink` only reads the edge store. -/
theorem getLink_congr (s s' : TopoState) (h : s'.edges = s.edges)
    (a b : String) : getLink s' a b = getLink s a b := by
  unfold getLink
  rw [h]

/-- `getInterface` only reads the node store and the number map. -/
theorem getInterface_congr (s s' : TopoState) (h1 : s'.nodes = s.nodes)
    (h2 : s'.numToName = s.numToName) (n : String) (r : PKey) :
    getInterface s' n r = getInterface s n r := by
  unfold getInterface getNode
  rw [h1, h2]

/-- `setIface` keeps every node present, with its id. -/
theorem getNode_setIface_id (s : TopoState) (a nm : String)
    (f : IfaceQ → IfaceQ) (k : String) (node : NodeObjQ)
    (h : getNode s k = some node) :
    ∃ node', getNode (setIface s a nm f) k = some node'
      ∧ node'.id = node.id := by
  unfold setIface
  cases hg : getNode s a with
  | none =>
    simp only [hg]
    exact ⟨node, h, rfl⟩
  | some na =>
    simp only [hg]
    cases hi : aget na.interfaces nm with
    | none =>
      simp only [hi]
      exact ⟨node, h, rfl⟩
    | some ifc =>
      simp only [hi]
      by_cases hk : k = a
      · subst hk
        refine ⟨{ na with interfaces := aset na.interfaces nm (f ifc) },
          ?_, ?_⟩
        · simp [getNode, aget_aset_self]
        · rw [h] at hg
          injection hg with hg
          rw [hg]
      · refine ⟨node, ?_, rfl⟩
        simp only [getNode]
        rw [aget_aset_ne _ _ _ _ hk]
        exact h

/-- Frames of the iperf branch: it only writes interface specs and the
iperf window. -/
theorem ulspIperf_frame (now : ℚ) (ts : TSState) (a b : String)
    (k : String × String) (r : Option ℚ) (ts' : TSState)
    (h : ulspIperf now ts a b k r = Except.ok ts') :
    ts'.topo.edges = ts.topo.edges
    ∧ ts'.topo.srcPortToDst = ts.topo.srcPortToDst
    ∧ ts'.topo.numToName = ts.topo.numToName
    ∧ ts'.portStats = ts.portStats := by
  cases r with
  | none =>
    simp only [ulspIperf] at h
    injection h with h
    rw [← h]
    exact ⟨rfl, rfl, rfl, rfl⟩
  | some bps =>
    simp only [ulspIperf] at h
    split at h
    · injection h with h
      rw [← h]
      exact ⟨setIface_edges .., setIface_srcPortToDst ..,
        setIface_numToName .., rfl⟩
    · split at h
      · exact absurd h (by simp)
      · injection h with h
        rw [← h]
        refine ⟨?_, ?_, ?_, rfl⟩
        · rw [setIface_edges, setIface_edges, setIface_edges]
        · rw [setIface_srcPortToDst, setIface_srcPortToDst,
            setIface_srcPortToDst]
        · rw [setIface_numToName, setIface_numToName, setIface_numToName]

/-- The iperf branch keeps every node present, with its id. -/
theorem ulspIperf_getNode (now : ℚ) (ts : TSState) (a b : String)
    (k : String × String) (r : Option ℚ) (ts' : TSState)
    (h : ulspIperf now ts a b k r = Except.ok ts') (n : String)
    (node : NodeObjQ) (hn : getNode ts.topo n = some node) :
    ∃ node', getNode ts'.topo n = some node' ∧ node'.id = node.id := by
  cases r with
  | none =>
    simp only [ulspIperf] at h
    injection h with h
    rw [← h]
    exact ⟨node, hn, rfl⟩
  | some bps =>
    simp only [ulspIperf] at h
    split at h
    · injection h with h
      rw [← h]
      exact getNode_setIface_id _ a b _ n node hn
    · split at h
      · exact absurd h (by simp)
      · injection h with h
        rw [← h]
        obtain ⟨n1, hn1, hid1⟩ := getNode_setIface_id ts.topo a b
          (fun ifc => ifSetCapacity now ifc (bps / 1000000)) n node hn
        obtain ⟨n2, hn2, hid2⟩ := getNode_setIface_id _ a b _ n n1 hn1
        obtain ⟨n3, hn3, hid3⟩ := getNode_setIface_id _ a b _ n n2 hn2
        exact ⟨n3, hn3, by rw [hid3, hid2, hid1]⟩

/-- The final writes of `_update_link_specs_at_port` set the link's
capacity and bandwidth to the min formulas over the port objects just
read, and touch nothing else of the topology. -/
theorem ulspFinish_spec (now : ℚ) (ts : TSState) (srcId dstId : String)
    (srcP dstP : IfaceQ) (tx : Option Int) (timestamp : ℚ)
    (key dstKey : String × String) (link0 : LinkTQ)
    (hl : getLink ts.topo srcId dstId = some link0) :
    ∃ link,
      getLink (ulspFinish now ts srcId dstId srcP dstP tx timestamp key
          dstKey).1.topo srcId dstId = some link
      ∧ link.srcRef = link0.srcRef
      ∧ link.dstRef = link0.dstRef
      ∧ link.specs.capacity = min srcP.specs.capacity dstP.specs.capacity
      ∧ link.specs.bandwidth
          = min srcP.specs.bandwidthUp dstP.specs.bandwidthDown
      ∧ (ulspFinish now ts srcId dstId srcP dstP tx timestamp key
          dstKey).1.topo.nodes = ts.topo.nodes
      ∧ (ulspFinish now ts srcId dstId srcP dstP tx timestamp key
          dstKey).1.topo.srcPortToDst = ts.topo.srcPortToDst
      ∧ (ulspFinish now ts srcId dstId srcP dstP tx timestamp key
          dstKey).1.topo.numToName = ts.topo.numToName := by
  cases tx with
  | none =>
    simp only [ulspFinish]
    refine ⟨lkSetTimestamp now (lkSetBandwidth now (lkSetCapacity now link0
        (min srcP.specs.capacity dstP.specs.capacity))
        (min srcP.specs.bandwidthUp dstP.specs.bandwidthDown)) timestamp,
      ?_, rfl, rfl, rfl, rfl, ?_, ?_, ?_⟩
    · rw [getLink_setLinkF_self, getLink_setLinkF_self,
        getLink_setLinkF_self, hl]
      rfl
    · rw [setLinkF_nodes, setLinkF_nodes, setLinkF_nodes]
    · rw [setLinkF_srcPortToDst, setLinkF_srcPortToDst,
        setLinkF_srcPortToDst]
    · rw [setLinkF_numToName, setLinkF_numToName, setLinkF_numToName]
  | some txv =>
    simp only [ulspFinish]
    refine ⟨lkSetTimestamp now (lkSetLossRate now (lkSetBandwidth now
        (lkSetCapacity now link0
          (min srcP.specs.capacity dstP.specs.capacity))
        (min srcP.specs.bandwidthUp dstP.specs.bandwidthDown))
        ((do
          let myStats ← aget ts.portStats key
          let f0 ← myStats.head?
          let ptx ← f0.1
          let dstStats ← aget ts.portStats dstKey
          let g0 ← dstStats.head?
          let prx ← g0.2.1
          let reTx := txv - ptx
          let reRx := dstP.specs.rxPackets - prx
          if reTx = 0 then none
          else some (max 0 (((reTx - reRx : Int) : ℚ)
            / ((reTx : Int) : ℚ)))).getD 1))
      timestamp, ?_, rfl, rfl, rfl, rfl, ?_, ?_, ?_⟩
    · rw [getLink_setLinkF_self, getLink_setLinkF_self,
        getLink_setLinkF_self, getLink_setLinkF_self, hl]
      rfl
    · rw [setLinkF_nodes, setLinkF_nodes, setLinkF_nodes, setLinkF_nodes]
    · rw [setLinkF_srcPortToDst, setLinkF_srcPortToDst,
        setLinkF_srcPortToDst, setLinkF_srcPortToDst]
    · rw [setLinkF_numToName, setLinkF_numToName, setLinkF_numToName,
        setLinkF_numToName]

/-- C6 (amended): whenever `_update_link_specs_at_port` succeeds in
processing the link at a port, the link's capacity equals
min(src_port.capacity, dst_port.capacity) and its bandwidth equals
min(src_port.bandwidth_up, dst_port.bandwidth_down), read through the
ports as they stand after the update.  (The equalities do NOT hold at all
times: `add_link` initializes both to 0 regardless of the port specs, and
`update_link_specs` writes arbitrary values.) -/
theorem c6_update_link_specs_at_port_invariant (now : ℚ) (ts : TSState)
    (srcId portName : String) (tx rx txB rxB : Option Int) (timestamp : ℚ)
    (recvBps : Option ℚ) (tsOut : TSState)
    (h : updateLinkSpecsAtPort now ts srcId portName tx rx txB rxB timestamp
        recvBps = Except.ok (tsOut, true)) :
    ∃ link srcP dstP,
      getLinkAtPort tsOut.topo srcId (PKey.kName portName) = some link
      ∧ getInterface tsOut.topo link.srcRef.1 (PKey.kName link.srcRef.2)
          = some srcP
      ∧ getInterface tsOut.topo link.dstRef.1 (PKey.kName link.dstRef.2)
          = some dstP
      ∧ link.specs.capacity = min srcP.specs.capacity dstP.specs.capacity
      ∧ link.specs.bandwidth
          = min srcP.specs.bandwidthUp dstP.specs.bandwidthDown := by
  simp only [updateLinkSpecsAtPort] at h
  split at h
  · injection h with h
    exact absurd (congrArg Prod.snd h) (by simp)
  · rename_i dstNode hdst
    split at h
    · injection h with h
      exact absurd (congrArg Prod.snd h) (by simp)
    · rename_i link hlink
      cases hip : ulspIperf now
          { ts with portStats := (saveStats ts.portStats (srcId, portName)
            (tx, rx, txB, rxB)) }
          link.dstRef.1 link.dstRef.2 (dstNode.id, link.dstRef.2) recvBps with
      | error e =>
        rw [hip] at h
        exact absurd h (by simp [Except.bind, Bind.bind])
      | ok tsI =>
        rw [hip] at h
        simp only [Except.bind, Bind.bind] at h
        split at h
        · rename_i srcP dstP hsrcP hdstP
          obtain ⟨hfedge, hfmap, hfnum, -⟩ :=
            ulspIperf_frame _ _ _ _ _ _ _ hip
          have hlinkI : getLink tsI.topo srcId dstNode.id = some link := by
            rw [getLink_congr _ _ hfedge]
            exact hlink
          obtain ⟨linkF, hgetF, hsrcRef, hdstRef, hcap, hbw, hfnodes,
            hfmap2, hfnum2⟩ :=
            ulspFinish_spec now tsI srcId dstNode.id srcP dstP tx timestamp
              (srcId, portName) (dstNode.id, link.dstRef.2) link hlinkI
          injection h with h
          have hout : (ulspFinish now tsI srcId dstNode.id srcP dstP tx
              timestamp (srcId, portName) (dstNode.id, link.dstRef.2)).1
              = tsOut := congrArg Prod.fst h
          unfold getDstAtPort at hdst
          obtain ⟨K, hK, hKnode⟩ := Option.bind_eq_some.mp hdst
          obtain ⟨nodeI, hnodeI, hidI⟩ :=
            ulspIperf_getNode _ _ _ _ _ _ _ hip K dstNode hKnode
          have hnodeF : getNode (ulspFinish now tsI srcId dstNode.id srcP
              dstP tx timestamp (srcId, portName)
              (dstNode.id, link.dstRef.2)).1.topo K = some nodeI := by
            unfold getNode
            rw [hfnodes]
            exact hnodeI
          have hdstF : getDstAtPort (ulspFinish now tsI srcId dstNode.id
              srcP dstP tx timestamp (srcId, portName)
              (dstNode.id, link.dstRef.2)).1.topo srcId
              (PKey.kName portName) = some nodeI := by
            unfold getDstAtPort
            rw [hfmap2, hfmap, hK]
            exact hnodeF
          have hlinkAt : getLinkAtPort (ulspFinish now tsI srcId dstNode.id
              srcP dstP tx timestamp (srcId, portName)
              (dstNode.id, link.dstRef.2)).1.topo srcId
              (PKey.kName portName) = some linkF := by
            unfold getLinkAtPort
            rw [hdstF]
            show getLink _ srcId nodeI.id = some linkF
            rw [hidI]
            exact hgetF
          refine ⟨linkF, srcP, dstP, ?_, ?_, ?_, hcap, hbw⟩
          · rw [← hout]
            exact hlinkAt
          · rw [← hout, hsrcRef,
              getInterface_congr tsI.topo _ hfnodes hfnum2]
            exact hsrcP
          · rw [← hout, hdstRef,
              getInterface_congr tsI.topo _ hfnodes hfnum2]
            exact hdstP
        · exact absurd h (by simp)


/-- Concrete topology for the C6 evidence: two nodes, one port each with
nonzero port specs, then `add_link`. -/
def c6Base : TopoState :=
  let s := addNode 0 emptyTopo "s" true "fog" none
  let s := addNode 0 s "d" true "fog" none
  let s := (addInterface 0 s "s" "p1" (some 1) none none).1
  let s := (addInterface 0 s "d" "p2" (some 1) none none).1
  let s := setIface s "s" "p1" (fun ifc => ifSetCapacity 0 ifc 1000)
  let s := setIface s "s" "p1" (fun ifc => ifSetBandwidthUp 0 ifc 300)
  let s := setIface s "d" "p2" (fun ifc => ifSetCapacity 0 ifc 1000)
  let s := setIface s "d" "p2" (fun ifc => ifSetBandwidthDown 0 ifc 200)
  (addLink 0 s "s" "d" "p1" "p2" true).1

/-- Immediately after `add_link` the min-equalities of C6 are FALSE: the
new link's specs are the `LinkSpecs()` defaults (capacity 0, bandwidth 0)
whatever the port specs hold. -/
theorem c6_add_link_breaks_min_cex :
    ∃ link srcP dstP,
      getLink c6Base "s" "d" = some link
      ∧ getInterface c6Base "s" (PKey.kName "p1") = some srcP
      ∧ getInterface c6Base "d" (PKey.kName "p2") = some dstP
      ∧ ¬ link.specs.capacity
          = min srcP.specs.capacity dstP.specs.capacity
      ∧ ¬ link.specs.bandwidth
          = min srcP.specs.bandwidthUp dstP.specs.bandwidthDown := by
  refine ⟨_, _, _, rfl, rfl, rfl, ?_, ?_⟩ <;> decide

/-- The `TopologyState` wrapper around `c6Base` with empty monitors. -/
def c6TS : TSState := ⟨c6Base, [], [], []⟩

/-- The state produced by a successful `_update_link_specs_at_port` run on
`c6TS` (no counters, no iperf sample). -/
def c6Out : TSState :=
  match updateLinkSpecsAtPort 7 c6TS "s" "p1" none none none none 5 none with
  | Except.ok r => r.1
  | Except.error _ => c6TS

theorem c6_update_link_specs_at_port_invariant_witness :
    ∃ link srcP dstP,
      getLinkAtPort c6Out.topo "s" (PKey.kName "p1") = some link
      ∧ getInterface c6Out.topo link.srcRef.1 (PKey.kName link.srcRef.2)
          = some srcP
      ∧ getInterface c6Out.topo link.dstRef.1 (PKey.kName link.dstRef.2)
          = some dstP
      ∧ link.specs.capacity = min srcP.specs.capacity dstP.specs.capacity
      ∧ link.specs.bandwidth
          = min srcP.specs.bandwidthUp dstP.specs.bandwidthDown :=
  c6_update_link_specs_at_port_invariant 7 c6TS "s" "p1" none none none none
    5 none c6Out (by rfl)


/-- Modelled from the spec: protocol state codes of section 6
(consts.py is not part of the given sources). -/
def HREQ : Nat := 1

/-- Modelled from the spec: state code HRES. -/
def HRES : Nat := 2

/-- Modelled from the spec: state code RREQ. -/
def RREQ : Nat := 3

/-- Modelled from the spec: state code RRES. -/
def RRES : Nat := 4

/-- Modelled from the spec: state code RACK. -/
def RACK : Nat := 5

/-- Modelled from the spec: state code RCAN. -/
def RCAN : Nat := 6

/-- Python truthiness of the `Request.host` field (a `str` or `None`):
`None` and the empty string are falsy. -/
def pyStrTruthy (h : Option String) : Bool :=
  match h with
  | none => false
  | some s => !(decide (s = ""))

/-- The slice of model.py `Request` read and written by
`Protocol._protocol_handler`'s RRES branch: protocol state, chosen host
(`host`, a string set only by `__init__` and the HREQ branch, both to
`None`), the responder key `_host_mac_ip`, the per-attempt `rres_at`
stamps, and the CoS used for the resource debit. -/
structure ReqQ where
  reqId : String
  cos : CoSQ
  state : Nat
  host : Option String
  hostMacIp : Option (String × String)
  attempts : List (Int × Option ℚ)
deriving Repr

/-- A frame emitted by the RRES branch, with the header fields the branch
fills: `rcan` to a late responder; `rack` to the responder (copying
`src_mac`/`src_ip` of the incoming frame); `hres` to the request's source
naming the responder as host. -/
inductive FrameOut where
| rcan (dstMac dstIp : String)
| rack (dstMac dstIp reqId : String) (attNo : Int) (srcMac srcIp : String)
| hres (dstMac dstIp reqId : String) (attNo : Int) (hostMac hostIp : String)
deriving Repr, DecidableEq

/-- The Protocol app state touched by the RRES branch: the tracked
requests keyed by `(src_ip, req_id)`, the `_responses` map written for the
`_srp1` rendezvous (values are the raw frames, not modelled), and the
shared topology whose node specs the branch debits. -/
structure ProtoSt where
  requests : List ((String × String) × ReqQ)
  responses : List (((String × String) × String) × Unit)
  topo : TopoState
deriving Repr

/-- Embedding of the `state == RRES` arm of `Protocol._protocol_handler`
(protocol.py lines 304-362).  `ethSrc`/`ipSrc` are the responder's
addresses, `srcMac`/`srcIp` the `src_mac`/`src_ip` fields carried by the
frame (the request's source, `src_ip` already stripped), `now` is
`time()`.  A `KeyError` on `attempts[att_no]` or an `AttributeError` on a
host absent from the topology (`get_by_mac`/`get_node` returning `None`)
makes the Python handler raise into the event loop before sending any
frame; those runs are collapsed to `Except.error ()` and no theorem below
is about them.  The `_events[_key].set()` greenlet wakeup has no modelled
observable. -/
def handleRRES (now : ℚ) (st : ProtoSt) (ethSrc ipSrc reqId srcMac
    srcIp : String) (attNo : Int) : Except Unit (ProtoSt × List FrameOut) :=
  let rid := (srcIp, reqId)
  let sends : List FrameOut :=
    [FrameOut.rack ethSrc ipSrc reqId attNo srcMac srcIp,
     FrameOut.hres srcMac srcIp reqId attNo ethSrc ipSrc]
  match aget st.requests rid with
  | none => Except.ok (st, [])
  | some req =>
    if pyStrTruthy req.host then
      if req.hostMacIp ≠ some (ethSrc, ipSrc) then
        Except.ok (st, [FrameOut.rcan ethSrc ipSrc])
      else
        Except.ok (st, sends)
    else if req.state = RREQ then
      match aget req.attempts attNo with
      | none => Except.error ()
      | some _ =>
        let req2 := { req with
          state := HRES
          attempts := aset req.attempts attNo (some now)
          hostMacIp := some (ethSrc, ipSrc) }
        let st1 := { st with
          requests := aset st.requests rid req2
          responses := aset st.responses (rid, ethSrc) () }
        match getByMacNodeId st.topo ethSrc with
        | none => Except.error ()
        | some hostId =>
          match getNode st.topo hostId with
          | none => Except.error ()
          | some host =>
            Except.ok ({ st1 with topo := (updateNodeSpecs now st.topo hostId
              (some (host.specs.cpuFree - req.cos.minCpu))
              (some (host.specs.memoryFree - req.cos.minRam))
              (some (host.specs.diskFree - req.cos.minDisk))
              none none none 0).1 }, sends)
    else
      Except.ok (st, sends)

/-- Concrete topology for the C1 run: the chosen host h2 with its
interface, reachable through the MAC reverse index. -/
def c1Topo : TopoState :=
  (addInterface 0 (addNode 0 emptyTopo "h2" true "fog" none) "h2" "eth0"
    (some 1) (some "h2mac") (some "h2ip")).1

/-- The CoS of the C1 request. -/
def c1Cos : CoSQ := ⟨0, 0, 0, 0, 1, 1, 1⟩

/-- The C1 request right after its HREQ was dispatched: state RREQ, no
host, attempt 0 open. -/
def c1Req0 : ReqQ := ⟨"r1", c1Cos, RREQ, none, none, [(0, none)]⟩

/-- The Protocol state tracking `c1Req0`. -/
def c1St0 : ProtoSt := ⟨[(("src1", "r1"), c1Req0)], [], c1Topo⟩

/-- The state after the first RRES (from candidate h2) was promoted. -/
def c1St1 : ProtoSt :=
  match handleRRES 5 c1St0 "h2mac" "h2ip" "r1" "srcmac" "src1" 0 with
  | Except.ok r => r.1
  | Except.error _ => c1St0

/-- C1: the first RRES (from h2) is promoted: the request goes to HRES
with `_host_mac_ip = (h2mac, h2ip)` — but `host` stays `None`, because no
statement of protocol.py ever assigns it a host (only `__init__` and the
HREQ branch write it, both with `None`).  Hence the `if _req.host:` guard
of the late-RRES branch is dead: a second RRES from the different
candidate h1 is NOT answered with RCAN; it falls through to the common
sends and receives a resource reservation acknowledgement, and a second
host response naming h1 is sent to the request's source, while the
request's state, host and the node specs stay unchanged. -/
theorem c1_late_rres_rcan_dead_code :
    (aget c1St1.requests ("src1", "r1")).map
        (fun r => (r.state, r.host, r.hostMacIp))
      = some (HRES, none, some ("h2mac", "h2ip"))
    ∧ handleRRES 9 c1St1 "h1mac" "h1ip" "r1" "srcmac" "src1" 0
      = Except.ok (c1St1,
        [FrameOut.rack "h1mac" "h1ip" "r1" 0 "srcmac" "src1",
         FrameOut.hres "srcmac" "src1" "r1" 0 "h1mac" "h1ip"]) :=
  ⟨rfl, rfl⟩


/-- The dynamic type of the first argument Python passes to
`NodeSelector.select`: the annotation says `Topology`, but
`Protocol._select_host` (protocol.py lines 430-431) passes
`self._topology.get_nodes().values()`, a `dict_values` of Nodes. -/
inductive PySelArg where
| topo (t : SelTopo)
| values (ns : List NodeQ)
deriving Repr

/-- `_SimpleNodeSelection.select` as reached through dynamic typing: its
first statement evaluates `topo.get_nodes()` (selection.py line 57), so a
`dict_values` argument raises `AttributeError` before the strategy is even
looked at; a real `Topology` proceeds as `simpleSelect`. -/
def simpleSelectDyn (arg : PySelArg) (req : RequestQ) (strategy : String) :
    Except Unit (Option (List NodeQ)) :=
  match arg with
  | PySelArg.topo t => Except.ok (simpleSelect t req strategy)
  | PySelArg.values _ => Except.error ()

/-- Embedding of `Protocol._select_host` (protocol.py lines 426-521).  Its
first action is `NodeSelector(NODE_ALGO).select(
self._topology.get_nodes().values(), req)`; every node algorithm
(`NODE_ALGORITHMS` holds only SIMPLE, and an unknown `NODE_ALGO` also
defaults to SIMPLE) reads `topo.get_nodes()` first, so the call raises
into the greenlet before any of lines 432-521 runs — in particular before
the `req.state = HREQ` resets of the no-hosts and exhausted-candidates
exits.  Those unreachable lines are therefore taken as an arbitrary
continuation `rest` of the selector's result: the theorem quantifies over
every `rest`, so nothing proved depends on their content. -/
def selectHost {α : Type} (nodes : List NodeQ) (req : RequestQ)
    (rest : Option (List NodeQ) → α) : Except Unit α :=
  match simpleSelectDyn (PySelArg.values nodes) req "" with
  | Except.error e => Except.error e
  | Except.ok hosts => Except.ok (rest hosts)

/-- C9: `_select_host` NEVER completes: for every node list, request and
continuation it raises (`AttributeError`: selection.py line 57 calls
`topo.get_nodes()` on the `dict_values` passed at protocol.py line 431).
In particular the `req.state = HREQ` resets for "no hosts" and "exhausted
candidates" are unreachable, the request stays in RREQ, and a retried
HREQ from the source is ignored by the HREQ branch's
`if _req.state == HREQ or _req.state == HRES` guard — contrary to the
claimed recovery behaviour. -/
theorem c9_select_host_always_raises {α : Type} (nodes : List NodeQ)
    (req : RequestQ) (rest : Option (List NodeQ) → α) :
    selectHost nodes req rest = Except.error () :=
  rfl

end FogServer
